import Mathlib

/-!
Shallow embedding of the steinarvk/midi SMF codec.

Byte streams are modelled as `List Nat` (each element a byte value < 256);
readers over an `io.Reader` backed by a byte buffer become functions that
consume a prefix of the list and return the rest.  Go's `uint64`/`int64`
arithmetic is modelled on `Nat`/`Int` with explicit `% 2^64` where the code
can wrap.  Fallible operations return `Except ParseError`.
-/

/-- Decidable equality for `Except` results, so concrete runs of the
codec can be checked by `decide`. -/
def exceptDecEq {ε α : Type} [DecidableEq ε] [DecidableEq α] :
    (a b : Except ε α) → Decidable (a = b)
  | .error e1, .error e2 =>
    if h : e1 = e2 then .isTrue (by rw [h]) else .isFalse (by simp [h])
  | .error _, .ok _ => .isFalse (by simp)
  | .ok _, .error _ => .isFalse (by simp)
  | .ok a1, .ok a2 =>
    if h : a1 = a2 then .isTrue (by rw [h]) else .isFalse (by simp [h])

instance {ε α : Type} [DecidableEq ε] [DecidableEq α] :
    DecidableEq (Except ε α) :=
  exceptDecEq

namespace Midi

/-- Error kinds of the codec.  Go represents errors as formatted strings; we
keep one constructor per distinct error site (the message text is dropped,
the identity of the site is kept). -/
inductive ParseError where
  /-- `io.EOF` surfaced directly from the byte source. -/
  | eof
  /-- `readVarint`: "EOF in the middle of varint". -/
  | truncatedVarint
  /-- `readSingleEvent`: "EOF in the middle of event". -/
  | truncatedEvent
  /-- parser: "running status changed ... in the middle of event". -/
  | runningStatusInterrupted
  /-- parser: "no MIDI event spec for running status". -/
  | unknownRunningStatus
  /-- parser: "MIDI event already too long for expected length". -/
  | midiPayloadOverflow
  /-- presenter: "...: want length n, got m". -/
  | midiPayloadLengthMismatch
  /-- `readLiteralExpecting`: read returned too few bytes. -/
  | shortRead
  /-- `readLiteralExpecting`: literal bytes did not match. -/
  | unexpectedLiteral
  /-- `onReadBytes`: "read error" while skipping a chunk. -/
  | readError
  /-- `parse`: "no MIDI tracks found: first track error: ...".  The first
  non-MIDI-track error is interpolated into the message text only, so it
  is dropped here like all other message details. -/
  | noMidiTracks
  /-- `parse` strict mode: "saw non-MIDI track". -/
  | sawNonMidiTrack (inner : ParseError)
  /-- `SysexEvent.EncodeMIDI`: "empty SysexEvent". -/
  | emptySysexEvent
  /-- `MIDIEvent.EncodeMIDI`: "encoding not implemented for ...". -/
  | encodingUnsupported
  /-- `Parse`: error decorated by the context reader's `WrapError`. -/
  | contextWrapped (inner : ParseError)
  /-- Fuel exhaustion of the embedding's bounded recursion; never reached
  when the fuel is at least the number of bytes available. -/
  | outOfFuel
deriving DecidableEq, Repr

/-- Little-endian base-128 septets of `n` (`for n > 0 { rrv = append(rrv,
byte(n & 0x7f)); n >>= 7 }` in `encodeVarint`).  `fuel`-bounded structural
recursion; `fuel = n` always suffices since `n / 128 < n` for `n > 0`. -/
def varintSeptetsAux : Nat → Nat → List Nat
  | _, 0 => []
  | 0, _ + 1 => []
  | fuel + 1, n + 1 => ((n + 1) % 128) :: varintSeptetsAux fuel ((n + 1) / 128)

/-- Little-endian base-128 septets of `n`. -/
def varintSeptets (n : Nat) : List Nat :=
  varintSeptetsAux n n

/-- The second loop of `encodeVarint`: reverse the septet list and set the
high bit on every byte but the final one. -/
def markCont : List Nat → List Nat
  | [] => []
  | [b] => [b]
  | b :: rest => (b ||| 0x80) :: markCont rest

/-- `encodeVarint` (src/unnamed/part_002): VLQ-encode `n`; `0` encodes as
the single byte `0x00`, otherwise most-significant septet first with the
high bit set on all but the last byte. -/
def encodeVarint (n : Nat) : List Nat :=
  if n = 0 then [0] else markCont (varintSeptets n).reverse

/-- The loop of `readVarint` (src/unnamed/part_005): `rv` is the Go
`uint64` accumulator, so the shift `rv = rv << 7` wraps modulo `2^64`
(the OR of two in-range values cannot overflow).  On end of input Go
distinguishes `rv != 0` ("EOF in the middle of varint") from a clean
EOF. -/
def readVarintAux (rv : Nat) : List Nat → Except ParseError (Nat × List Nat)
  | [] => if rv ≠ 0 then .error .truncatedVarint else .error .eof
  | b :: rest =>
    let rv2 := rv ||| (b &&& 0x7f)
    if b &&& 0x80 ≠ 0 then readVarintAux ((rv2 <<< 7) % 2 ^ 64) rest
    else .ok (rv2, rest)

/-- `readVarint`: decode one VLQ from the front of the stream. -/
def readVarint (bytes : List Nat) : Except ParseError (Nat × List Nat) :=
  readVarintAux 0 bytes

/-- `eventType` (src/unnamed/part_001). -/
inductive EventType where
  | midiEvent
  | sysexEvent
  | metaEvent
  | timeDeltaEvent
deriving DecidableEq, Repr

/-- `parserState` (src/unnamed/part_001). -/
inductive ParserState where
  | wantEvent
  | wantMetaType
  | wantMetaLength
  | wantMetaData
  | wantSysexLength
  | wantSysexData
deriving DecidableEq, Repr

/-- Raw `event` struct produced by the event-data parser
(src/unnamed/part_001). -/
structure RawEvent where
  kind : EventType
  typeByte : Nat := 0
  data : List Nat := []
  timeDelta : Nat := 0
deriving DecidableEq, Repr

/-- `eventDataParser` (src/unnamed/part_001).  Go's nil byte slices are
modelled as `[]`. -/
structure EventDataParser where
  state : ParserState := .wantEvent
  bytesFed : Nat := 0
  runningStatus : Nat := 0
  eventData : List Nat := []
  metaEventType : Nat := 0
  metaLength : Nat := 0
  currentSysexType : Nat := 0
  sysexLength : Nat := 0
  sysexData : List Nat := []
  events : List RawEvent := []
deriving DecidableEq, Repr

/-- Go `int64(u)` for a `uint64` value `u < 2^64`; also the signed value
a Go 64-bit `int` holds for the bit pattern `u`. -/
def toInt64 (n : Nat) : Int :=
  if n < 2 ^ 63 then (n : Int) else (n : Int) - 2 ^ 64

/-- Go `uint64(t)` for an `int64` value `t`. -/
def toUint64 (t : Int) : Nat :=
  (t % 2 ^ 64).toNat

/-- Data length of the `midiEventSpecs` table entry for a status-byte high
nibble (src/unnamed/part_001); `none` when the map has no entry. -/
def midiEventSpecDataLen (nibble : Nat) : Option Nat :=
  if nibble = 0x8 then some 2
  else if nibble = 0x9 then some 2
  else if nibble = 0xA then some 2
  else if nibble = 0xB then some 2
  else if nibble = 0xC then some 1
  else if nibble = 0xD then some 1
  else if nibble = 0xE then some 2
  else none

/-- `eventDataParser.feedMIDIDataByte` (src/unnamed/part_001).  Returns
the updated parser and the end-of-event flag. -/
def feedMIDIDataByte (p : EventDataParser) (data : Nat) :
    Except ParseError (EventDataParser × Bool) :=
  let nibble := (p.runningStatus &&& 0xf0) >>> 4
  match midiEventSpecDataLen nibble with
  | none => .error .unknownRunningStatus
  | some dataLen =>
    let ed := p.eventData ++ [data]
    if ed.length = dataLen then
      .ok ({ p with
              eventData := [],
              events := p.events ++
                [{ kind := .midiEvent, typeByte := p.runningStatus, data := ed }] },
           true)
    else if dataLen ≤ ed.length then
      .error .midiPayloadOverflow
    else
      .ok ({ p with eventData := ed }, false)

/-- `eventDataParser.feedByteInternal` (src/unnamed/part_001, later draft
with SysEx length states).  The `metaLength`/`sysexLength` registers are
Go 64-bit `int`s held here as their bit pattern (a `Nat` below `2^64`):
the shift-or wraps modulo `2^64`, the `== 0` emission checks hold exactly
when the bit pattern is zero, and the data-state length comparisons are
Go `int` comparisons — `len(...)` (always non-negative) against the
register's signed value `toInt64`. -/
def feedByteInternal (p : EventDataParser) (data : Nat) :
    Except ParseError (EventDataParser × Bool) :=
  match p.state with
  | .wantEvent =>
    if data = 0xFF then
      .ok ({ p with state := .wantMetaType }, false)
    else if data = 0xF0 ∨ data = 0xF7 then
      .ok ({ p with
              currentSysexType := data,
              state := .wantSysexLength,
              sysexLength := 0,
              sysexData := [] },
           false)
    else if data &&& 0x80 ≠ 0 then
      if p.eventData ≠ [] then .error .runningStatusInterrupted
      else .ok ({ p with runningStatus := data }, false)
    else
      feedMIDIDataByte p data
  | .wantMetaType =>
    .ok ({ p with
            metaEventType := data,
            state := .wantMetaLength,
            metaLength := 0,
            eventData := [] },
         false)
  | .wantSysexLength =>
    let sl := ((p.sysexLength <<< 7) ||| (data &&& 0x7F)) % 2 ^ 64
    let st := if data &&& 0x80 = 0 then ParserState.wantSysexData
              else ParserState.wantSysexLength
    if sl = 0 then
      -- flushSysexEvent: emit, reset sysex registers, state → wantEvent
      .ok ({ p with
              sysexLength := sl,
              state := .wantEvent,
              sysexData := [],
              currentSysexType := 0,
              events := p.events ++
                [{ kind := .sysexEvent, typeByte := p.currentSysexType,
                   data := p.sysexData }] },
           true)
    else
      .ok ({ p with sysexLength := sl, state := st }, false)
  | .wantSysexData =>
    let sd := p.sysexData ++ [data]
    if (sd.length : Int) = toInt64 p.sysexLength then
      .ok ({ p with
              sysexData := [],
              state := .wantEvent,
              currentSysexType := 0,
              events := p.events ++
                [{ kind := .sysexEvent, typeByte := p.currentSysexType,
                   data := sd }] },
           true)
    else
      .ok ({ p with sysexData := sd }, false)
  | .wantMetaLength =>
    let ml := ((p.metaLength <<< 7) ||| (data &&& 0x7F)) % 2 ^ 64
    let st := if data &&& 0x80 = 0 then ParserState.wantMetaData
              else ParserState.wantMetaLength
    if ml = 0 then
      .ok ({ p with
              metaLength := ml,
              state := .wantEvent,
              eventData := [],
              events := p.events ++
                [{ kind := .metaEvent, typeByte := p.metaEventType,
                   data := p.eventData }] },
           true)
    else
      .ok ({ p with metaLength := ml, state := st }, false)
  | .wantMetaData =>
    let ed := p.eventData ++ [data]
    if (ed.length : Int) = toInt64 p.metaLength then
      .ok ({ p with
              eventData := [],
              state := .wantEvent,
              events := p.events ++
                [{ kind := .metaEvent, typeByte := p.metaEventType,
                   data := ed }] },
         true)
    else
      .ok ({ p with eventData := ed }, false)

/-- `eventDataParser.feedByte`: delegate to `feedByteInternal` and count
the byte (the error wrapper only adds message text). -/
def feedByte (p : EventDataParser) (data : Nat) :
    Except ParseError (EventDataParser × Bool) :=
  match feedByteInternal p data with
  | .error e => .error e
  | .ok (p2, done) => .ok ({ p2 with bytesFed := p2.bytesFed + 1 }, done)

/-- `eventDataParser.feed`: feed a whole byte list, ignoring the
end-of-event flags. -/
def feed (p : EventDataParser) : List Nat → Except ParseError EventDataParser
  | [] => .ok p
  | b :: rest =>
    match feedByte p b with
    | .error e => .error e
    | .ok (p2, _) => feed p2 rest

/-- Loop body of `eventDataParser.readSingleEvent`: feed bytes until the
parser signals end-of-event.  `began` tracks whether any byte was read, as
Go reports "EOF in the middle of event" only in that case. -/
def readSingleEventAux (p : EventDataParser) (began : Bool) :
    List Nat → Except ParseError (EventDataParser × List Nat)
  | [] => .error (if began then .truncatedEvent else .eof)
  | b :: rest =>
    match feedByte p b with
    | .error e => .error e
    | .ok (p2, done) =>
      if done then .ok (p2, rest) else readSingleEventAux p2 true rest

/-- `eventDataParser.readSingleEvent` over a byte-list source. -/
def readSingleEvent (p : EventDataParser) (bytes : List Nat) :
    Except ParseError (EventDataParser × List Nat) :=
  readSingleEventAux p false bytes

/-- `eventDataParser.addTimeDelta`. -/
def addTimeDelta (p : EventDataParser) (dt : Nat) : EventDataParser :=
  { p with events := p.events ++ [{ kind := .timeDeltaEvent, timeDelta := dt }] }

/-- `MetaEvent` (src/events.go): type byte and payload. -/
structure MetaEvent where
  type : Nat
  data : List Nat
deriving DecidableEq, Repr

/-- `SetTempo` constant (src/events.go). -/
def SetTempo : Nat := 0x51

/-- `DefaultTempo` constant (src/events.go): 120 bpm. -/
def DefaultTempo : Int := 500000

/-- `MetaEvent.GetTempo` (src/events.go): faithful translation including
the `==` comparison of the source's guard. -/
def MetaEvent.GetTempo (e : MetaEvent) : Option Int :=
  if e.type = SetTempo ∨ e.data.length ≠ 3 then none
  else
    some (((e.data.getD 0 0 <<< 16 : Nat) |||
           (e.data.getD 1 0 <<< 8 : Nat) |||
           (e.data.getD 2 0 : Nat) : Nat) : Int)

/-- `MIDIEvent` (src/events.go).  Go's nil `RawData` slice is `none`. -/
structure MIDIEvent where
  type : Nat
  rawType : Nat := 0
  channel : Nat := 0
  key : Nat := 0
  velocity : Nat := 0
  controllerNumber : Nat := 0
  controllerValue : Nat := 0
  programNumber : Nat := 0
  rawData : Option (List Nat) := none
deriving DecidableEq, Repr

/-- `NoteOn` etc. (src/events.go `MIDIEventType` constants). -/
def NoteOn : Nat := 0x90

def NoteOff : Nat := 0x80

def Aftertouch : Nat := 0xA0

def ControllerChange : Nat := 0xB0

def ProgramChange : Nat := 0xC0

def ChannelPressure : Nat := 0xD0

def PitchBend : Nat := 0xE0

/-- Presented `Event` interface (src/events.go): closed union of the four
concrete implementations `TimeDeltaEvent`, `SysexEvent`, `MetaEvent`,
`MIDIEvent`. -/
inductive Event where
  | timeDelta (t : Int)
  | sysex (data : List Nat)
  | meta (e : MetaEvent)
  | midi (m : MIDIEvent)
deriving DecidableEq, Repr

/-- `presentEvent` (src/events.go): raw parser event to public event. -/
def presentEvent (evt : RawEvent) : Except ParseError Event :=
  match evt.kind with
  | .sysexEvent => .ok (.sysex (evt.typeByte :: evt.data))
  | .metaEvent => .ok (.meta { type := evt.typeByte, data := evt.data })
  | .timeDeltaEvent => .ok (.timeDelta (toInt64 evt.timeDelta))
  | .midiEvent =>
    let rv : MIDIEvent :=
      { type := 0xf0 &&& evt.typeByte,
        rawType := evt.typeByte,
        channel := 0x0f &&& evt.typeByte,
        rawData := some evt.data }
    if rv.type = NoteOn then
      match evt.data with
      | [k, v] =>
        if v = 0 then
          .ok (.midi { rv with key := k, velocity := 0x40, type := NoteOff })
        else
          .ok (.midi { rv with key := k, velocity := v })
      | _ => .error .midiPayloadLengthMismatch
    else if rv.type = NoteOff then
      match evt.data with
      | [k, v] => .ok (.midi { rv with key := k, velocity := v })
      | _ => .error .midiPayloadLengthMismatch
    else if rv.type = Aftertouch then
      match evt.data with
      | [k, v] => .ok (.midi { rv with key := k, velocity := v })
      | _ => .error .midiPayloadLengthMismatch
    else if rv.type = ControllerChange then
      match evt.data with
      | [a, b] =>
        .ok (.midi { rv with controllerNumber := a, controllerValue := b })
      | _ => .error .midiPayloadLengthMismatch
    else if rv.type = ProgramChange then
      match evt.data with
      | [a] => .ok (.midi { rv with programNumber := a })
      | _ => .error .midiPayloadLengthMismatch
    else if rv.type = ChannelPressure then
      match evt.data with
      | [a] => .ok (.midi { rv with velocity := a })
      | _ => .error .midiPayloadLengthMismatch
    else if rv.type = PitchBend then
      match evt.data with
      | [_, _] => .ok (.midi rv)
      | _ => .error .midiPayloadLengthMismatch
    else
      -- Go switch has no default branch: the event passes through as-is.
      .ok (.midi rv)

/-- `EncodeMIDI` methods (src/events.go) dispatched over the event union. -/
def encodeMIDIEvent : Event → Except ParseError (List Nat)
  | .timeDelta td => .ok (encodeVarint (toUint64 td))
  | .sysex [] => .error .emptySysexEvent
  | .sysex (b :: rest) => .ok (b :: (encodeVarint rest.length ++ rest))
  | .meta e => .ok (0xFF :: e.type :: (encodeVarint e.data.length ++ e.data))
  | .midi m =>
    match m.rawData with
    | some rd => .ok ((m.type % 256 ||| m.channel % 256) :: rd)
    | none =>
      if m.type = NoteOn ∨ m.type = NoteOff then
        .ok ((m.type % 256 ||| m.channel % 256) ::
          [m.key % 256, m.velocity % 256])
      else
        .error .encodingUnsupported

/-- `encodeEvents` (src/unnamed/part_002) with the pending-delay
accumulator made explicit; Go's `delay` is a `uint64`. -/
def encodeEventsAux : List Event → Nat → Except ParseError (List Nat)
  | [], _ => .ok []
  | .timeDelta td :: evts, delay =>
    encodeEventsAux evts ((delay + toUint64 td) % 2 ^ 64)
  | evt :: evts, delay =>
    match encodeMIDIEvent evt with
    | .error e => .error e
    | .ok encoded =>
      match encodeEventsAux evts 0 with
      | .error e => .error e
      | .ok rest => .ok (encodeVarint delay ++ encoded ++ rest)

/-- `encodeEvents`: serialize a track's event list. -/
def encodeEvents (evts : List Event) : Except ParseError (List Nat) :=
  encodeEventsAux evts 0

/-- `OnEvents`' tempo register (src/unnamed/part_005): the evolution of
`microsPerBeat` over a track's events — a `MetaEvent` updates it when
`GetTempo` reports a tempo, every other event leaves it unchanged. -/
def onEventsMicrosPerBeat (microsPerBeat : Int) : List Event → Int
  | [] => microsPerBeat
  | .meta e :: evts =>
    match e.GetTempo with
    | some newTempo => onEventsMicrosPerBeat newTempo evts
    | none => onEventsMicrosPerBeat microsPerBeat evts
  | _ :: evts => onEventsMicrosPerBeat microsPerBeat evts

/-- Loop of `parseTrackBody` (src/unnamed/part_005): read a VLQ time
delta (a clean EOF ends the track), record it when non-zero, then read one
event.  Each iteration consumes at least one byte, so fuel equal to the
byte count plus one suffices. -/
def parseTrackBodyAux : Nat → EventDataParser → List Nat →
    Except ParseError (List RawEvent)
  | 0, _, _ => .error .outOfFuel
  | fuel + 1, p, bytes =>
    match readVarint bytes with
    | .error .eof => .ok p.events
    | .error e => .error e
    | .ok (timeDelta, rest) =>
      let p := if 0 < timeDelta then addTimeDelta p timeDelta else p
      match readSingleEvent p rest with
      | .error e => .error e
      | .ok (p2, rest2) => parseTrackBodyAux fuel p2 rest2

/-- `parseTrackBody`: parse a whole track body into raw events. -/
def parseTrackBody (bytes : List Nat) : Except ParseError (List RawEvent) :=
  parseTrackBodyAux (bytes.length + 1) {} bytes

/-- The presentation loop of `parseTrack` (src/unnamed/part_005): present
each raw event, stopping at the first error. -/
def presentAll : List RawEvent → Except ParseError (List Event)
  | [] => .ok []
  | evt :: evts =>
    match presentEvent evt with
    | .error e => .error e
    | .ok presentable =>
      match presentAll evts with
      | .error e => .error e
      | .ok rest => .ok (presentable :: rest)

/-- Track-body parse followed by presentation: the event list a `Track`
receives for a given body byte sequence. -/
def parsePresentedBody (bytes : List Nat) : Except ParseError (List Event) :=
  match parseTrackBody bytes with
  | .error e => .error e
  | .ok rawEvents => presentAll rawEvents

/-- `Header` (src/unnamed/part_005). -/
structure Header where
  format : Nat
  numberOfTracks : Nat
  division : Int
deriving DecidableEq, Repr

/-- `Track` (src/unnamed/part_005). -/
structure Track where
  events : List Event
deriving DecidableEq, Repr

/-- `File` (src/unnamed/part_005). -/
structure File where
  header : Header
  tracks : List Track
deriving DecidableEq, Repr

/-- Big-endian 16-bit encoding of a `uint16` value. -/
def u16be (n : Nat) : List Nat :=
  [n % 2 ^ 16 / 2 ^ 8, n % 2 ^ 8]

/-- Big-endian 32-bit encoding of a `uint32` value. -/
def u32be (n : Nat) : List Nat :=
  [n % 2 ^ 32 / 2 ^ 24, n % 2 ^ 24 / 2 ^ 16, n % 2 ^ 16 / 2 ^ 8, n % 2 ^ 8]

/-- Big-endian two's-complement 16-bit encoding of an `int16` value. -/
def i16be (d : Int) : List Nat :=
  u16be (d % 2 ^ 16).toNat

/-- `Header.encode` (src/unnamed/part_002): `MThd`, length 6, then the
three big-endian header fields.  Writing to a byte buffer cannot fail. -/
def Header.encode (h : Header) : List Nat :=
  [0x4D, 0x54, 0x68, 0x64] ++ u32be 6 ++
    u16be h.format ++ u16be h.numberOfTracks ++ i16be h.division

/-- `Track.encode` (src/unnamed/part_002): `MTrk`, 32-bit body length,
then the encoded events. -/
def Track.encode (t : Track) : Except ParseError (List Nat) :=
  match encodeEvents t.events with
  | .error e => .error e
  | .ok data => .ok ([0x4D, 0x54, 0x72, 0x6B] ++ u32be data.length ++ data)

/-- Track loop of `File.encode`. -/
def encodeTracks : List Track → Except ParseError (List Nat)
  | [] => .ok []
  | trk :: trks =>
    match trk.encode with
    | .error e => .error e
    | .ok data =>
      match encodeTracks trks with
      | .error e => .error e
      | .ok rest => .ok (data ++ rest)

/-- `File.encode` (src/unnamed/part_002). -/
def File.encode (f : File) : Except ParseError (List Nat) :=
  match encodeTracks f.tracks with
  | .error e => .error e
  | .ok trackData => .ok (f.header.encode ++ trackData)

/-- `readLiteralExpecting` (src/unnamed/part_005): one `Read` of
`len(s)` bytes (a byte-buffer source returns what is available), checked
against the literal.  Returns the rest of the stream on success; a
buffer source always consumes `min len avail` bytes. -/
def readLiteralExpecting (bytes : List Nat) (s : List Nat) :
    Except ParseError (List Nat) :=
  if bytes.length < s.length then .error .shortRead
  else if bytes.take s.length = s then .ok (bytes.drop s.length)
  else .error .unexpectedLiteral

/-- Read a big-endian `uint32` as `binary.Read` does (via `io.ReadFull`,
failing when fewer than four bytes remain). -/
def readU32 (bytes : List Nat) : Except ParseError (Nat × List Nat) :=
  match bytes with
  | b0 :: b1 :: b2 :: b3 :: rest =>
    .ok (((b0 * 256 + b1) * 256 + b2) * 256 + b3, rest)
  | _ => .error .shortRead

/-- `parseSizedChunk` (src/unnamed/part_005): a 32-bit length then one
`Read` of that many bytes, which must return them all. -/
def parseSizedChunk (bytes : List Nat) :
    Except ParseError (List Nat × List Nat) :=
  match readU32 bytes with
  | .error e => .error e
  | .ok (length, rest) =>
    if rest.length < length then .error .shortRead
    else .ok (rest.take length, rest.drop length)

/-- `parseHeader` (src/unnamed/part_005): literal `MThd`, a sized chunk,
and big-endian decode of its first six bytes into the `Header` fields
(`binary.Read` fails when the chunk is shorter; extra bytes are
ignored). -/
def parseHeader (bytes : List Nat) :
    Except ParseError (Header × List Nat) :=
  match readLiteralExpecting bytes [0x4D, 0x54, 0x68, 0x64] with
  | .error e => .error e
  | .ok rest =>
    match parseSizedChunk rest with
    | .error e => .error e
    | .ok (headerData, rest2) =>
      match headerData with
      | b0 :: b1 :: b2 :: b3 :: b4 :: b5 :: _ =>
        .ok ({ format := b0 * 256 + b1,
               numberOfTracks := b2 * 256 + b3,
               division :=
                 (if b4 * 256 + b5 < 2 ^ 15 then ((b4 * 256 + b5 : Nat) : Int)
                  else ((b4 * 256 + b5 : Nat) : Int) - 2 ^ 16) },
             rest2)
      | _ => .error .shortRead

/-- `onReadBytes` with a nil callback (src/unnamed/part_005): skip
`remaining` bytes in buffers of 4096, decrementing by the requested count
while the source hands out what it has; attempting to read from an empty
source is a read error.  Fuel equal to `remaining` suffices because each
iteration requests at least one byte. -/
def onReadBytesSkip : Nat → Nat → List Nat → Except ParseError (List Nat)
  | _, 0, bytes => .ok bytes
  | 0, _ + 1, _ => .error .outOfFuel
  | fuel + 1, rem + 1, bytes =>
    let n := min 4096 (rem + 1)
    if bytes.isEmpty then .error .readError
    else onReadBytesSkip fuel (rem + 1 - n) (bytes.drop n)

/-- `skipSizedChunk` (src/unnamed/part_005). -/
def skipSizedChunk (bytes : List Nat) : Except ParseError (List Nat) :=
  match readU32 bytes with
  | .error e => .error e
  | .ok (length, rest) => onReadBytesSkip length length rest

/-- Outcome of `parseTrack` (src/unnamed/part_005), carrying the
remaining stream where the Go code leaves the reader positioned. -/
inductive TrackParseOutcome where
  /-- Tag was not `MTrk`: the chunk was skipped (or skipping failed);
  `err` is what `parseTrack` returns as its error value. -/
  | notMidi (err : ParseError) (rest : List Nat)
  /-- Tag was `MTrk` but parsing its body failed. -/
  | midiErr (err : ParseError)
  /-- Tag was `MTrk` and the track parsed. -/
  | midiOk (t : Track) (rest : List Nat)
deriving DecidableEq, Repr

/-- `parseTrack` (src/unnamed/part_005): expect `MTrk`; on mismatch skip
the sized chunk; otherwise parse the length-limited body and present its
events. -/
def parseTrack (bytes : List Nat) : TrackParseOutcome :=
  match readLiteralExpecting bytes [0x4D, 0x54, 0x72, 0x6B] with
  | .error litErr =>
    -- the failed literal read consumed up to four bytes
    (match skipSizedChunk (bytes.drop 4) with
     | .error skipErr => .notMidi skipErr []
     | .ok rest => .notMidi litErr rest)
  | .ok rest =>
    match readU32 rest with
    | .error e => .midiErr e
    | .ok (length, rest2) =>
      -- limitreader window of `length` bytes over the remaining stream
      match parsePresentedBody (rest2.take length) with
      | .error e => .midiErr e
      | .ok evts => .midiOk { events := evts } (rest2.drop length)

/-- Track loop of `parse` (src/unnamed/part_005): non-`MTrk` chunks fail
in strict mode and are skipped in tolerant mode; the first track error
inside an `MTrk` aborts. -/
def parseTracksLoop (strict : Bool) :
    Nat → List Nat → Bool → List Track → Except ParseError (List Track)
  | 0, _, sawMidiTrack, acc =>
    if sawMidiTrack then .ok acc else .error .noMidiTracks
  | n + 1, bytes, sawMidiTrack, acc =>
    match parseTrack bytes with
    | .notMidi e rest =>
      if strict then .error (.sawNonMidiTrack e)
      else parseTracksLoop strict n rest sawMidiTrack acc
    | .midiErr e => .error e
    | .midiOk trk rest => parseTracksLoop strict n rest true (acc ++ [trk])

/-- `parse` (src/unnamed/part_005). -/
def parse (bytes : List Nat) (strict : Bool) : Except ParseError File :=
  match parseHeader bytes with
  | .error e => .error e
  | .ok (hdr, rest) =>
    match parseTracksLoop strict hdr.numberOfTracks rest false [] with
    | .error e => .error e
    | .ok tracks => .ok { header := hdr, tracks := tracks }

/-- Public `Parse` (src/unnamed/part_005): tolerant mode with errors
decorated by the context reader. -/
def Parse (bytes : List Nat) : Except ParseError File :=
  match parse bytes false with
  | .error e => .error (.contextWrapped e)
  | .ok f => .ok f

/-- Modelled from the spec: the normalization the round-trip property of
§8.2 allows — "merging each run of consecutive TimeDelta events into a
single TimeDelta carrying their sum and dropping TimeDelta events whose
value is 0".  The run sum is accumulated as the 64-bit unsigned quantity
the codec uses and presented as an `int64`.  A trailing run is kept, as
the spec's wording licenses no further change. -/
def specMergeDeltasAux : Nat → List Event → List Event
  | acc, [] => if acc = 0 then [] else [.timeDelta (toInt64 acc)]
  | acc, .timeDelta t :: evts =>
    specMergeDeltasAux ((acc + toUint64 t) % 2 ^ 64) evts
  | acc, evt :: evts =>
    (if acc = 0 then [] else [.timeDelta (toInt64 acc)]) ++
      evt :: specMergeDeltasAux 0 evts

/-- Modelled from the spec: §8.2's allowed normalization (see
`specMergeDeltasAux`). -/
def specMergeDeltas (evts : List Event) : List Event :=
  specMergeDeltasAux 0 evts

/-- The amended normalization: like `specMergeDeltas` but a trailing run
of TimeDelta events (one not followed by any non-TimeDelta event) is
dropped, matching what the encoder actually does with a pending delay at
the end of the list. -/
def normalizeEventsAux : Nat → List Event → List Event
  | _, [] => []
  | acc, .timeDelta t :: evts =>
    normalizeEventsAux ((acc + toUint64 t) % 2 ^ 64) evts
  | acc, evt :: evts =>
    (if acc = 0 then [] else [.timeDelta (toInt64 acc)]) ++
      evt :: normalizeEventsAux 0 evts

/-- The amended normalization (see `normalizeEventsAux`). -/
def normalizeEvents (evts : List Event) : List Event :=
  normalizeEventsAux 0 evts

/-- The raw parser event that the wire bytes of a well-formed presented
event parse back to. -/
def rawOfEvent : Event → RawEvent
  | .timeDelta t => { kind := .timeDeltaEvent, timeDelta := toUint64 t }
  | .sysex l => { kind := .sysexEvent, typeByte := l.headD 0, data := l.tail }
  | .meta e => { kind := .metaEvent, typeByte := e.type, data := e.data }
  | .midi m =>
    { kind := .midiEvent,
      typeByte := m.type % 256 ||| m.channel % 256,
      data := m.rawData.getD [] }

/-- The raw event sequence `parseTrackBody` produces for the encoding of
an event list, starting from a pending delay of `acc`. -/
def rawNormalizeAux : Nat → List Event → List RawEvent
  | _, [] => []
  | acc, .timeDelta t :: evts =>
    rawNormalizeAux ((acc + toUint64 t) % 2 ^ 64) evts
  | acc, evt :: evts =>
    (if acc = 0 then [] else [{ kind := .timeDeltaEvent, timeDelta := acc }]) ++
      rawOfEvent evt :: rawNormalizeAux 0 evts

/-- Well-formedness of a presented MIDI event for the round-trip: the
event is exactly what the presenter reconstructs from its own wire bytes
(payload present with in-range data bytes, derived fields consistent, and
not a `NoteOn` with velocity `0`, which presents as `NoteOff`). -/
def wellFormedMidi (m : MIDIEvent) : Bool :=
  decide (m.channel < 16) &&
  decide (m.rawType = m.type ||| m.channel) &&
  (if m.type = NoteOn then
    match m.rawData with
    | some [k, v] =>
      decide (k < 128) && decide (v < 128) && decide (v ≠ 0) &&
      decide (m.key = k) && decide (m.velocity = v) &&
      decide (m.controllerNumber = 0) && decide (m.controllerValue = 0) &&
      decide (m.programNumber = 0)
    | _ => false
  else if m.type = NoteOff ∨ m.type = Aftertouch then
    match m.rawData with
    | some [k, v] =>
      decide (k < 128) && decide (v < 128) &&
      decide (m.key = k) && decide (m.velocity = v) &&
      decide (m.controllerNumber = 0) && decide (m.controllerValue = 0) &&
      decide (m.programNumber = 0)
    | _ => false
  else if m.type = ControllerChange then
    match m.rawData with
    | some [a, b] =>
      decide (a < 128) && decide (b < 128) &&
      decide (m.key = 0) && decide (m.velocity = 0) &&
      decide (m.controllerNumber = a) && decide (m.controllerValue = b) &&
      decide (m.programNumber = 0)
    | _ => false
  else if m.type = ProgramChange then
    match m.rawData with
    | some [a] =>
      decide (a < 128) &&
      decide (m.key = 0) && decide (m.velocity = 0) &&
      decide (m.controllerNumber = 0) && decide (m.controllerValue = 0) &&
      decide (m.programNumber = a)
    | _ => false
  else if m.type = ChannelPressure then
    match m.rawData with
    | some [a] =>
      decide (a < 128) &&
      decide (m.key = 0) && decide (m.velocity = a) &&
      decide (m.controllerNumber = 0) && decide (m.controllerValue = 0) &&
      decide (m.programNumber = 0)
    | _ => false
  else if m.type = PitchBend then
    match m.rawData with
    | some [a, b] =>
      decide (a < 128) && decide (b < 128) &&
      decide (m.key = 0) && decide (m.velocity = 0) &&
      decide (m.controllerNumber = 0) && decide (m.controllerValue = 0) &&
      decide (m.programNumber = 0)
    | _ => false
  else false)

/-- Well-formedness of one event for the round-trip: a parser-canonical
event whose wire bytes parse and present back to itself. -/
def wellFormedEvent : Event → Bool
  | .timeDelta t => decide (-(2 ^ 63 : Int) ≤ t) && decide (t < 2 ^ 63)
  | .sysex [] => false
  | .sysex (b :: rest) =>
    (decide (b = 0xF0) || decide (b = 0xF7)) &&
    decide (rest.length < 2 ^ 31) && rest.all (fun x => decide (x < 256))
  | .meta e =>
    decide (e.type < 256) && decide (e.data.length < 2 ^ 31) &&
    e.data.all (fun x => decide (x < 256))
  | .midi m => wellFormedMidi m

/-- Well-formedness of a whole event list. -/
def wellFormedEvents (evts : List Event) : Bool :=
  evts.all wellFormedEvent

/-- The value of `readVarint`'s accumulator after consuming a run of
continuation bytes (each step ORs in the low septet and shifts left by
seven, wrapping modulo `2^64`, exactly as the loop's `uint64` does). -/
def vlqDanglingAccum (bytes : List Nat) : Nat :=
  bytes.foldl (fun a b => ((a ||| (b &&& 0x7F)) <<< 7) % 2 ^ 64) 0

/-! ### Bitwise bridging lemmas -/

theorem and127_eq_mod (b : Nat) : b &&& 0x7F = b % 128 :=
  Nat.and_pow_two_sub_one_eq_mod b 7

theorem toInt64_small (n : Nat) (h : n < 2 ^ 63) : toInt64 n = n := by
  rw [toInt64, if_pos h]

theorem int_len_eq_iff (a b : Nat) (hb : b < 2 ^ 63) :
    ((a : Int) = toInt64 b) ↔ a = b := by
  rw [toInt64_small b hb]
  exact Int.ofNat_inj

theorem shiftLeft7_lor (m s : Nat) (h : s < 128) :
    (m <<< 7) ||| s = 128 * m + s := by
  rw [Nat.shiftLeft_eq]
  have h2 : 2 ^ 7 * m + s = 2 ^ 7 * m ||| s := Nat.mul_add_lt_is_or h m
  calc m * 2 ^ 7 ||| s = 2 ^ 7 * m ||| s := by ring_nf
    _ = 2 ^ 7 * m + s := h2.symm
    _ = 128 * m + s := by norm_num

theorem lor128_eq_add (s : Nat) (h : s < 128) : s ||| 128 = 128 + s := by
  have h2 : 2 ^ 7 * 1 + s = 2 ^ 7 * 1 ||| s := Nat.mul_add_lt_is_or h 1
  simpa [Nat.lor_comm] using h2.symm

theorem lor128_and127 (s : Nat) (h : s < 128) : (s ||| 128) &&& 0x7F = s := by
  rw [lor128_eq_add s h, and127_eq_mod]
  omega

theorem lor128_and128 (s : Nat) (h : s < 128) : (s ||| 128) &&& 0x80 ≠ 0 := by
  rw [lor128_eq_add s h]
  have h7 : (128 + s).testBit 7 = true := by
    rw [Nat.testBit_to_div_mod]
    simp only [decide_eq_true_eq]
    omega
  have h8 := Nat.and_two_pow (128 + s) 7
  simp only [h7, Bool.toNat_true, one_mul] at h8
  norm_num at h8 ⊢
  omega

theorem and128_of_lt (s : Nat) (h : s < 128) : s &&& 0x80 = 0 := by
  have h7 : s.testBit 7 = false := Nat.testBit_lt_two_pow (by norm_num; omega)
  have := Nat.and_two_pow s 7
  simp only [h7, Bool.toNat_false, zero_mul] at this
  simpa using this

theorem lor_mul128_add (q s : Nat) (h : s < 128) :
    (128 * q) ||| s = 128 * q + s := by
  have h2 : 2 ^ 7 * q + s = 2 ^ 7 * q ||| s := Nat.mul_add_lt_is_or h q
  calc (128 * q) ||| s = 2 ^ 7 * q ||| s := by norm_num
    _ = 2 ^ 7 * q + s := h2.symm
    _ = 128 * q + s := by norm_num

/-! ### VLQ codec lemmas -/

theorem varintSeptetsAux_fuel (n : Nat) :
    ∀ f1 f2, n ≤ f1 → n ≤ f2 →
      varintSeptetsAux f1 n = varintSeptetsAux f2 n := by
  induction n using Nat.strong_induction_on with
  | _ n ih =>
    intro f1 f2 h1 h2
    match n, f1, f2 with
    | 0, f1, f2 => cases f1 <;> cases f2 <;> rfl
    | k + 1, a + 1, b + 1 =>
      simp only [varintSeptetsAux]
      have hdiv : (k + 1) / 128 < k + 1 := Nat.div_lt_self (by omega) (by omega)
      exact congrArg _ (ih ((k + 1) / 128) hdiv a b (by omega) (by omega))

theorem varintSeptets_pos (n : Nat) (h : 0 < n) :
    varintSeptets n = (n % 128) :: varintSeptets (n / 128) := by
  obtain ⟨m, rfl⟩ : ∃ m, n = m + 1 := ⟨n - 1, by omega⟩
  show varintSeptetsAux (m + 1) (m + 1) = _
  simp only [varintSeptetsAux]
  refine congrArg _ (varintSeptetsAux_fuel ((m + 1) / 128) m ((m + 1) / 128) ?_ le_rfl)
  have : (m + 1) / 128 < m + 1 := Nat.div_lt_self (by omega) (by omega)
  omega

theorem markCont_append (xs : List Nat) (y : Nat) :
    markCont (xs ++ [y]) = xs.map (· ||| 128) ++ [y] := by
  induction xs with
  | nil => rfl
  | cons x xs ih =>
    cases xs with
    | nil => rfl
    | cons x2 xs2 => simpa [markCont] using ih

theorem encodeVarint_pos (n : Nat) (h : 0 < n) :
    encodeVarint n =
      (varintSeptets (n / 128)).reverse.map (· ||| 128) ++ [n % 128] := by
  rw [encodeVarint, if_neg (by omega), varintSeptets_pos n h]
  simp [markCont_append]

theorem readVarintAux_marked (m : Nat) :
    ∀ A rest, 128 ∣ A →
      A * 128 ^ (varintSeptets m).length + m * 128 < 2 ^ 64 →
      readVarintAux A ((varintSeptets m).reverse.map (· ||| 128) ++ rest) =
        readVarintAux (A * 128 ^ (varintSeptets m).length + m * 128) rest := by
  induction m using Nat.strong_induction_on with
  | _ m ih =>
    intro A rest hA hbound
    rcases Nat.eq_zero_or_pos m with hm | hm
    · subst hm
      simp [varintSeptets, varintSeptetsAux]
    · rw [varintSeptets_pos m hm] at hbound ⊢
      simp only [List.reverse_cons, List.map_append, List.map_cons,
        List.map_nil, List.append_assoc, List.singleton_append,
        List.length_cons, List.length_reverse] at hbound ⊢
      have hdiv : m / 128 < m := Nat.div_lt_self hm (by omega)
      have hBle : (A * 128 ^ (varintSeptets (m / 128)).length +
          (m / 128) * 128) * 128 ≤
          A * 128 ^ ((varintSeptets (m / 128)).length + 1) + m * 128 := by
        have h1 : m / 128 * 128 ≤ m := Nat.div_mul_le_self m 128
        calc (A * 128 ^ (varintSeptets (m / 128)).length +
              (m / 128) * 128) * 128
            = A * 128 ^ ((varintSeptets (m / 128)).length + 1) +
              (m / 128 * 128) * 128 := by rw [pow_succ]; ring
          _ ≤ A * 128 ^ ((varintSeptets (m / 128)).length + 1) + m * 128 := by
              have := Nat.mul_le_mul_right 128 h1
              omega
      have hBbound : A * 128 ^ (varintSeptets (m / 128)).length +
          (m / 128) * 128 < 2 ^ 64 := by
        have h2 : A * 128 ^ (varintSeptets (m / 128)).length +
            (m / 128) * 128 ≤
            (A * 128 ^ (varintSeptets (m / 128)).length +
              (m / 128) * 128) * 128 :=
          Nat.le_mul_of_pos_right _ (by omega)
        omega
      rw [ih (m / 128) hdiv A ((m % 128 ||| 128) :: rest) hA hBbound]
      set B := A * 128 ^ (varintSeptets (m / 128)).length + (m / 128) * 128 with hB
      have hBdvd : 128 ∣ B := by
        obtain ⟨q, hq⟩ := hA
        rcases Nat.eq_zero_or_pos (varintSeptets (m / 128)).length with hL | hL
        · exact ⟨q * 128 ^ (varintSeptets (m / 128)).length + m / 128, by
            rw [hB, hq]; ring⟩
        · exact ⟨A * 128 ^ ((varintSeptets (m / 128)).length - 1) + m / 128, by
            rw [hB]
            have : (128 : Nat) ^ (varintSeptets (m / 128)).length =
                128 * 128 ^ ((varintSeptets (m / 128)).length - 1) := by
              rw [← pow_succ']
              congr 1
              omega
            rw [this]; ring⟩
      obtain ⟨q, hq⟩ := hBdvd
      simp only [readVarintAux]
      rw [lor128_and127 (m % 128) (by omega), hq,
        lor_mul128_add q (m % 128) (by omega)]
      rw [if_pos (by simpa [hq] using lor128_and128 (m % 128) (by omega))]
      have harith : (128 * q + m % 128) <<< 7 =
          A * 128 ^ ((varintSeptets (m / 128)).length + 1) + m * 128 := by
        rw [Nat.shiftLeft_eq, ← hq, hB]
        have hmdm : m / 128 * 128 + m % 128 = m := by omega
        calc (A * 128 ^ (varintSeptets (m / 128)).length + m / 128 * 128 + m % 128) * 2 ^ 7
            = (A * 128 ^ (varintSeptets (m / 128)).length + (m / 128 * 128 + m % 128)) * 128 := by
              ring_nf
          _ = (A * 128 ^ (varintSeptets (m / 128)).length + m) * 128 := by rw [hmdm]
          _ = A * 128 ^ ((varintSeptets (m / 128)).length + 1) + m * 128 := by ring
      rw [harith, Nat.mod_eq_of_lt hbound]

theorem readVarint_encodeVarint (n : Nat) (rest : List Nat) (hn : n < 2 ^ 64) :
    readVarint (encodeVarint n ++ rest) = .ok (n, rest) := by
  rcases Nat.eq_zero_or_pos n with hn0 | hn0
  · subst hn0
    simp [encodeVarint, readVarint, readVarintAux]
  · rw [readVarint, encodeVarint_pos n hn0, List.append_assoc,
      readVarintAux_marked (n / 128) 0 _ ⟨0, by ring⟩
        (by simpa using Nat.lt_of_le_of_lt (Nat.div_mul_le_self n 128) hn)]
    simp only [List.singleton_append, readVarintAux, zero_mul, zero_add]
    have h1 : n % 128 &&& 0x7F = n % 128 := by rw [and127_eq_mod]; omega
    have h2 : n % 128 &&& 0x80 = 0 := and128_of_lt _ (by omega)
    rw [h1, h2]
    have h3 : n / 128 * 128 ||| n % 128 = n := by
      rw [mul_comm, lor_mul128_add _ _ (by omega)]
      omega
    simp [h3]

end Midi

namespace Midi

/-! ### C6: VLQ round-trip -/

/-- C6: for every unsigned integer `u` in `[0, 2^32)`, decoding the byte
sequence produced by VLQ-encoding `u` yields `u` again (and consumes the
whole encoding). -/
theorem c6_vlq_round_trip (u : Nat) (h : u < 2 ^ 32) :
    readVarint (encodeVarint u) = .ok (u, []) := by
  simpa using readVarint_encodeVarint u [] (by omega)

/-- Witness for C6 at `u = 12345678`. -/
theorem c6_vlq_round_trip_witness :
    12345678 < 2 ^ 32 ∧ readVarint (encodeVarint 12345678) = .ok (12345678, []) :=
  ⟨by norm_num, c6_vlq_round_trip 12345678 (by norm_num)⟩

/-! ### C3: varint error behaviour -/

theorem readVarintAux_all_cont (bytes : List Nat) :
    ∀ acc, (∀ b ∈ bytes, b &&& 0x80 ≠ 0) →
      readVarintAux acc bytes =
        .error (if bytes.foldl
                  (fun a b => ((a ||| (b &&& 0x7F)) <<< 7) % 2 ^ 64) acc = 0
                then .eof else .truncatedVarint) := by
  induction bytes with
  | nil =>
    intro acc _
    rcases eq_or_ne acc 0 with h | h <;> simp [readVarintAux, h]
  | cons b rest ih =>
    intro acc hcont
    simp only [readVarintAux, List.foldl_cons]
    rw [if_pos (hcont b (by simp))]
    exact ih _ (fun x hx => hcont x (by simp [hx]))

theorem readVarintAux_cont_then_final (pre : List Nat) :
    ∀ acc b, (∀ x ∈ pre, x &&& 0x80 ≠ 0) → b &&& 0x80 = 0 →
      ∃ v, readVarintAux acc (pre ++ [b]) = .ok (v, []) := by
  induction pre with
  | nil =>
    intro acc b _ hb
    refine ⟨acc ||| (b &&& 0x7F), ?_⟩
    simp [readVarintAux, hb]
  | cons x pre ih =>
    intro acc b hcont hb
    simp only [List.cons_append, readVarintAux]
    rw [if_pos (hcont x (by simp))]
    exact ih _ b (fun y hy => hcont y (by simp [hy])) hb

/-- Counterexample to C3: the stream `[0x80]` ends immediately after a
continuation byte yet `readVarint` reports a plain end-of-stream, not a
truncated varint; a six-byte quantity decodes successfully — there is no
`VarintOverflow` at five bytes; and ten continuation bytes `0x81,
0x80 × 9` wrap the 64-bit accumulator back to zero, so that dangling
stream too reports a plain end-of-stream. -/
theorem c3_counterexample :
    readVarint [0x80] = .error .eof ∧
    readVarint [0x80] ≠ .error .truncatedVarint ∧
    readVarint [0x81, 0x80, 0x80, 0x80, 0x80, 0x00] = .ok (34359738368, []) ∧
    readVarint [0x81, 0x80, 0x80, 0x80, 0x80, 0x80, 0x80, 0x80, 0x80, 0x80] =
      .error .eof := by
  refine ⟨by decide, by decide, by decide, by decide⟩

/-- C3 as amended: a stream consisting only of continuation bytes fails
with the truncated-varint error exactly when the accumulated (shifted)
`uint64` value — which wraps modulo `2^64` — is non-zero, and with plain
end-of-stream otherwise (so a run of continuation bytes that wraps the
accumulator back to zero, such as `0x81` followed by nine `0x80`s, is a
plain end-of-stream too); and a quantity of any byte length — in
particular more than five bytes — decodes without error, as the code has
no overflow check. -/
theorem c3_varint_errors :
    (∀ bytes : List Nat, bytes ≠ [] → (∀ b ∈ bytes, b &&& 0x80 ≠ 0) →
      readVarint bytes =
        .error (if vlqDanglingAccum bytes = 0 then .eof
                else .truncatedVarint)) ∧
    (∀ (pre : List Nat) (b : Nat), (∀ x ∈ pre, x &&& 0x80 ≠ 0) →
      b &&& 0x80 = 0 → ∃ v, readVarint (pre ++ [b]) = .ok (v, [])) := by
  constructor
  · intro bytes _ hcont
    exact readVarintAux_all_cont bytes 0 hcont
  · intro pre b hcont hb
    exact readVarintAux_cont_then_final pre 0 b hcont hb

/-- Witness for C3's amended statement: `[0x81]` dangles with non-zero
accumulator and is reported truncated; ten continuation bytes `0x81,
0x80 × 9` wrap the accumulator to zero and are reported as a plain
end-of-stream; and `[0x81, 0x80, 0x80, 0x80, 0x80, 0x00]` is a six-byte
quantity that decodes. -/
theorem c3_varint_errors_witness :
    readVarint [0x81] = .error .truncatedVarint ∧
    readVarint [0x81, 0x80, 0x80, 0x80, 0x80, 0x80, 0x80, 0x80, 0x80, 0x80] =
      .error .eof ∧
    ∃ v, readVarint [0x81, 0x80, 0x80, 0x80, 0x80, 0x00] = .ok (v, []) := by
  refine ⟨?_, ?_, ?_⟩
  · have h := c3_varint_errors.1 [0x81] (by decide) (by decide)
    simpa using h
  · have h := c3_varint_errors.1
      [0x81, 0x80, 0x80, 0x80, 0x80, 0x80, 0x80, 0x80, 0x80, 0x80]
      (by decide) (by decide)
    rw [if_pos (by decide : vlqDanglingAccum
      [0x81, 0x80, 0x80, 0x80, 0x80, 0x80, 0x80, 0x80, 0x80, 0x80] = 0)] at h
    exact h
  · exact c3_varint_errors.2 [0x81, 0x80, 0x80, 0x80, 0x80] 0x00
      (by decide) (by decide)

/-! ### C1: GetTempo and the tempo register -/

/-- C1 is a code bug: `GetTempo`'s guard is inverted (`==` where `!=` is
meant), so a SetTempo (type `0x51`) meta event with a three-byte payload
yields no tempo and leaves the walker's `microsPerBeat` unchanged, while
any *other* meta type with three data bytes (here `0x2F`) yields the
payload's big-endian 24-bit value and rewrites the tempo register. -/
theorem c1_gettempo_inverted :
    MetaEvent.GetTempo { type := 0x51, data := [0x05, 0xE3, 0x8B] } = none ∧
    onEventsMicrosPerBeat DefaultTempo
      [.meta { type := 0x51, data := [0x05, 0xE3, 0x8B] }] = DefaultTempo ∧
    MetaEvent.GetTempo { type := 0x2F, data := [0x05, 0xE3, 0x8B] } =
      some 385931 ∧
    onEventsMicrosPerBeat DefaultTempo
      [.meta { type := 0x2F, data := [0x05, 0xE3, 0x8B] }] = 385931 := by
  decide

end Midi

namespace Midi

/-! ### C5: the written track_count field -/

/-- Counterexample to C5: a `File` whose header claims seven tracks but
whose track sequence is empty encodes successfully, and bytes 10–11 of
the output (the big-endian `track_count` field) hold 7, not the length 0
of the track sequence. -/
theorem c5_counterexample :
    File.encode { header := { format := 0, numberOfTracks := 7, division := 0 },
                  tracks := [] } =
      .ok [0x4D, 0x54, 0x68, 0x64, 0, 0, 0, 6, 0, 0, 0, 7, 0, 0] ∧
    ([] : List Track).length ≠ 7 := by
  constructor
  · rfl
  · decide

/-- C5 as amended: the 16-bit `track_count` field written into the `MThd`
header body (bytes 10 and 11 of the encoder's output) equals the
`NumberOfTracks` field stored in the `File`'s header — the encoder copies
that field verbatim and does not derive it from the length of the track
sequence. -/
theorem c5_track_count_field (f : File) (bs : List Nat)
    (h : f.encode = .ok bs) :
    bs[10]? = some (f.header.numberOfTracks % 2 ^ 16 / 2 ^ 8) ∧
    bs[11]? = some (f.header.numberOfTracks % 2 ^ 8) := by
  rw [File.encode] at h
  cases henc : encodeTracks f.tracks with
  | error e => rw [henc] at h; cases h
  | ok trackData =>
    rw [henc] at h
    cases h
    simp [Header.encode, u16be, u32be, i16be, List.getElem?_append,
      List.append_assoc]

/-- Witness for C5's amended statement on a file with header count 7 and
no tracks. -/
theorem c5_track_count_field_witness :
    [0x4D, 0x54, 0x68, 0x64, 0, 0, 0, 6, 0, 0, 0, 7, 0, 0][10]? = some 0 ∧
    [(0x4D : Nat), 0x54, 0x68, 0x64, 0, 0, 0, 6, 0, 0, 0, 7, 0, 0][11]? = some 7 :=
  c5_track_count_field
    { header := { format := 0, numberOfTracks := 7, division := 0 },
      tracks := [] }
    [0x4D, 0x54, 0x68, 0x64, 0, 0, 0, 6, 0, 0, 0, 7, 0, 0] (by rfl)

end Midi

namespace Midi

/-! ### C7: NoteOn with velocity zero presents as NoteOff -/

/-- C7: for every channel nibble `c` and key byte `k`, presenting the
parsed MIDI event with status byte `0x90 + c` (NoteOn on channel `c`) and
data bytes `[k, 0x00]` yields a MIDI event of kind NoteOff, channel `c`,
key `k`, and velocity `0x40`. -/
theorem c7_noteon_zero_velocity (c k : Nat) (hc : c < 16) (hk : k < 256) :
    presentEvent { kind := .midiEvent, typeByte := 0x90 + c, data := [k, 0] } =
      .ok (.midi { type := NoteOff, rawType := 0x90 + c, channel := c,
                   key := k, velocity := 0x40, rawData := some [k, 0] }) := by
  have h1 : 0xf0 &&& (0x90 + c) = 0x90 := by interval_cases c <;> decide
  have h2 : 0x0f &&& (0x90 + c) = c := by interval_cases c <;> decide
  simp [presentEvent, h1, h2, NoteOn, NoteOff]

/-- Witness for C7 at channel `0xC`, key `0x3C` (the claim's literal
`0x9C, k, 0x00` shape). -/
theorem c7_noteon_zero_velocity_witness :
    presentEvent { kind := .midiEvent, typeByte := 0x9C, data := [0x3C, 0] } =
      .ok (.midi { type := NoteOff, rawType := 0x9C, channel := 0xC,
                   key := 0x3C, velocity := 0x40, rawData := some [0x3C, 0] }) :=
  c7_noteon_zero_velocity 0xC 0x3C (by decide) (by decide)

/-! ### C4: emission in the length states -/

/-- Counterexample to C4: in the `WantMetaLength` state (after `0xFF,
0x2F`) the byte `0x80` has its high bit set, yet the parser emits the
empty Meta event and signals end-of-event there (`readSingleEvent`
returns with no residual input past that byte). -/
theorem c4_counterexample :
    (0x80 : Nat) &&& 0x80 ≠ 0 ∧
    (readSingleEvent {} [0xFF, 0x2F, 0x80]).map
        (fun pr => (pr.1.events, pr.1.state, pr.2)) =
      .ok ([{ kind := .metaEvent, typeByte := 0x2F, data := [], timeDelta := 0 }],
        .wantEvent, []) := by
  decide

/-- C4 as amended: in the `WantMetaLength` state (with the event buffer
clear, as the `WantMetaType` transition leaves it), feeding byte `b`
emits a Meta event with empty data and signals end-of-event (state back
to `WantEvent`) exactly when the accumulated `meta_length` — a 64-bit
register, so the shift-or is taken modulo `2^64` — is 0 after absorbing
`b`'s septet; this is irrespective of `b`'s high bit, which only chooses
the follow-up state when nothing is emitted, and a register wrapped back
to zero (e.g. from `2^57`) also emits.  The mirrored property holds for
`WantSysexLength` and SysEx events. -/
theorem c4_length_state_emission (p : EventDataParser) (b : Nat) :
    (p.state = .wantMetaLength → p.eventData = [] →
      ((∃ p2, feedByteInternal p b = .ok (p2, true) ∧
          p2.state = .wantEvent ∧
          p2.events = p.events ++
            [{ kind := .metaEvent, typeByte := p.metaEventType, data := [],
               timeDelta := 0 }]) ↔
        ((p.metaLength <<< 7) ||| (b &&& 0x7F)) % 2 ^ 64 = 0)) ∧
    (p.state = .wantSysexLength → p.sysexData = [] →
      ((∃ p2, feedByteInternal p b = .ok (p2, true) ∧
          p2.state = .wantEvent ∧
          p2.events = p.events ++
            [{ kind := .sysexEvent, typeByte := p.currentSysexType, data := [],
               timeDelta := 0 }]) ↔
        ((p.sysexLength <<< 7) ||| (b &&& 0x7F)) % 2 ^ 64 = 0)) := by
  constructor
  · intro hstate hed
    simp only [feedByteInternal, hstate]
    constructor
    · rintro ⟨p2, hfeed, -, -⟩
      by_contra hne
      rw [if_neg hne] at hfeed
      cases hfeed
    · intro h0
      rw [if_pos h0]
      exact ⟨_, rfl, rfl, by simp [hed]⟩
  · intro hstate hsd
    simp only [feedByteInternal, hstate]
    constructor
    · rintro ⟨p2, hfeed, -, -⟩
      by_contra hne
      rw [if_neg hne] at hfeed
      cases hfeed
    · intro h0
      rw [if_pos h0]
      exact ⟨_, rfl, rfl, by simp [hsd]⟩

/-- Witness for C4's amended statement: a parser sitting in
`WantMetaLength` (reached by feeding `0xFF, 0x2F`) emits on byte `0x00`,
whose accumulated length is 0; and a parser whose length register holds
`2^57` (reached by the length bytes `0x82, 0x80 × 8`) also emits on
`0x00`, because the register wraps to 0. -/
theorem c4_length_state_emission_witness :
    (∃ p2, feedByteInternal
        { state := .wantMetaLength, bytesFed := 2, metaEventType := 0x2F }
        0x00 = .ok (p2, true) ∧
      p2.state = .wantEvent ∧
      p2.events = [] ++
        [{ kind := .metaEvent, typeByte := 0x2F, data := [],
           timeDelta := 0 }]) ∧
    (∃ p2, feedByteInternal
        { state := .wantMetaLength, bytesFed := 11, metaEventType := 0x2F,
          metaLength := 2 ^ 57 }
        0x00 = .ok (p2, true) ∧
      p2.state = .wantEvent ∧
      p2.events = [] ++
        [{ kind := .metaEvent, typeByte := 0x2F, data := [],
           timeDelta := 0 }]) :=
  ⟨((c4_length_state_emission
      { state := .wantMetaLength, bytesFed := 2, metaEventType := 0x2F }
      0x00).1 rfl rfl).mpr (by decide),
   ((c4_length_state_emission
      { state := .wantMetaLength, bytesFed := 11, metaEventType := 0x2F,
        metaLength := 2 ^ 57 }
      0x00).1 rfl rfl).mpr (by decide)⟩

/-! ### C9: the encoder's pending delay -/

/-- C9: the track encoder starts with a pending delay of 0; a TimeDelta
event adds to the pending delay (64-bit unsigned accumulation); any other
event first emits the VLQ of the current pending delay, then its own wire
bytes, and continues with the pending delay reset to 0; and a pending
delay at the end of the list contributes no bytes. -/
theorem c9_encoder_pending_delay :
    (∀ evts, encodeEvents evts = encodeEventsAux evts 0) ∧
    (∀ delay t evts,
      encodeEventsAux (.timeDelta t :: evts) delay =
        encodeEventsAux evts ((delay + toUint64 t) % 2 ^ 64)) ∧
    (∀ delay evt evts bs, (∀ t, evt ≠ .timeDelta t) →
      encodeMIDIEvent evt = .ok bs →
      encodeEventsAux (evt :: evts) delay =
        match encodeEventsAux evts 0 with
        | .error e => .error e
        | .ok rest => .ok (encodeVarint delay ++ bs ++ rest)) ∧
    (∀ delay, encodeEventsAux [] delay = .ok []) := by
  refine ⟨fun _ => rfl, fun _ _ _ => rfl, ?_, fun _ => rfl⟩
  intro delay evt evts bs hnd henc
  match evt with
  | .timeDelta t => exact absurd rfl (hnd t)
  | .sysex d =>
    rw [encodeEventsAux, henc]
    intro td h
    cases h
  | .meta e =>
    rw [encodeEventsAux, henc]
    intro td h
    cases h
  | .midi m =>
    rw [encodeEventsAux, henc]
    intro td h
    cases h

/-- Witness for C9: a pending delay of 5 is flushed as `[0x05]` before an
EndOfTrack meta event's bytes. -/
theorem c9_encoder_pending_delay_witness :
    encodeEventsAux [.meta { type := 0x2F, data := [] }] 5 =
      .ok ([0x05] ++ [0xFF, 0x2F, 0x00] ++ []) := by
  have h := c9_encoder_pending_delay.2.2.1 5 (.meta { type := 0x2F, data := [] })
    [] [0xFF, 0x2F, 0x00] (by intro t h; cases h) (by decide)
  rw [h]
  decide

end Midi

namespace Midi

/-! ### C10: zero-track headers are rejected -/

theorem parseTracksLoop_growth (strict : Bool) :
    ∀ (n : Nat) (bytes : List Nat) (sawMidiTrack : Bool) (acc tracks : List Track),
      parseTracksLoop strict n bytes sawMidiTrack acc = .ok tracks →
      acc.length ≤ tracks.length ∧
        (sawMidiTrack = false → acc.length < tracks.length) := by
  intro n
  induction n with
  | zero =>
    intro bytes sawMidiTrack acc tracks h
    cases sawMidiTrack with
    | false => simp [parseTracksLoop] at h
    | true =>
      simp only [parseTracksLoop, if_pos] at h
      cases h
      exact ⟨le_rfl, by simp⟩
  | succ n ih =>
    intro bytes sawMidiTrack acc tracks h
    rw [parseTracksLoop] at h
    cases hpt : parseTrack bytes with
    | notMidi e rest =>
      rw [hpt] at h
      cases strict with
      | true => simp at h
      | false => exact ih rest sawMidiTrack acc tracks h
    | midiErr e => rw [hpt] at h; cases h
    | midiOk trk rest =>
      rw [hpt] at h
      have h2 := ih rest true (acc ++ [trk]) tracks h
      constructor
      · have := h2.1
        simp only [List.length_append, List.length_cons, List.length_nil] at this
        omega
      · intro _
        have := h2.1
        simp only [List.length_append, List.length_cons, List.length_nil] at this
        omega

/-- C10: when the parsed `MThd` header declares zero tracks, the public
`Parse` entry fails with the wrapped no-MIDI-tracks error, however
well-formed the rest of the stream is; and `Parse` never returns a `File`
whose track list is empty. -/
theorem c10_no_zero_track_file :
    (∀ (bytes rest : List Nat) (hdr : Header),
      parseHeader bytes = .ok (hdr, rest) → hdr.numberOfTracks = 0 →
      Parse bytes = .error (.contextWrapped .noMidiTracks)) ∧
    (∀ (bytes : List Nat) (f : File), Parse bytes = .ok f →
      f.tracks ≠ []) := by
  constructor
  · intro bytes rest hdr hh h0
    simp [Parse, parse, hh, h0, parseTracksLoop]
  · intro bytes f h
    rw [Parse] at h
    cases hp : parse bytes false with
    | error e => rw [hp] at h; cases h
    | ok f2 =>
      rw [hp] at h
      cases h
      rw [parse] at hp
      cases hh : parseHeader bytes with
      | error e => rw [hh] at hp; cases hp
      | ok hr =>
        obtain ⟨hdr, rest⟩ := hr
        rw [hh] at hp
        simp only at hp
        cases hloop : parseTracksLoop false hdr.numberOfTracks rest false [] with
        | error e => rw [hloop] at hp; cases hp
        | ok tracks =>
          rw [hloop] at hp
          cases hp
          have h2 := (parseTracksLoop_growth false hdr.numberOfTracks rest
            false [] tracks hloop).2 rfl
          simp only [List.length_nil] at h2
          intro hnil
          simp only at hnil
          rw [hnil] at h2
          simp at h2

/-- Witness for C10: a well-formed six-byte header declaring zero tracks
is rejected with the no-MIDI-tracks error. -/
theorem c10_no_zero_track_file_witness :
    Parse [0x4D, 0x54, 0x68, 0x64, 0, 0, 0, 6, 0, 0, 0, 0, 0, 0x60] =
      .error (.contextWrapped .noMidiTracks) :=
  c10_no_zero_track_file.1
    [0x4D, 0x54, 0x68, 0x64, 0, 0, 0, 6, 0, 0, 0, 0, 0, 0x60] []
    { format := 0, numberOfTracks := 0, division := 0x60 } (by decide) rfl

end Midi

namespace Midi

/-! ### Per-byte feed lemmas for MIDI channel-voice events -/

theorem and240_shift (s : Nat) : s &&& 0xf0 = ((s &&& 0xf0) >>> 4) <<< 4 := by
  apply Nat.eq_of_testBit_eq
  intro i
  rcases Nat.lt_or_ge i 4 with h | h
  · have h240 : Nat.testBit 240 i = false := by interval_cases i <;> decide
    have hle : ¬(4 ≤ i) := by omega
    rw [Nat.testBit_and, h240, Bool.and_false, Nat.testBit_shiftLeft]
    simp [hle]
  · rw [Nat.testBit_shiftLeft, Nat.testBit_shiftRight]
    have h4 : (4 + (i - 4)) = i := by omega
    rw [h4]
    simp [h]

theorem byte_ne_specials (b : Nat) (hb : b &&& 0x80 = 0) :
    b ≠ 0xFF ∧ b ≠ 0xF0 ∧ b ≠ 0xF7 := by
  refine ⟨?_, ?_, ?_⟩ <;> rintro rfl <;> simp at hb

theorem feedByte_status (p : EventDataParser) (s : Nat)
    (hstate : p.state = .wantEvent) (hed : p.eventData = [])
    (hs80 : s &&& 0x80 ≠ 0) (hsff : s ≠ 0xFF) (hsf0 : s ≠ 0xF0)
    (hsf7 : s ≠ 0xF7) :
    feedByte p s =
      .ok ({ p with runningStatus := s, bytesFed := p.bytesFed + 1 }, false) := by
  have h1 : ¬(s = 0xF0 ∨ s = 0xF7) := not_or.mpr ⟨hsf0, hsf7⟩
  have h2 : ¬(p.eventData ≠ []) := by simp [hed]
  simp [feedByte, feedByteInternal, hstate, hsff, h1, hs80, h2]

theorem feedByte_data1 (p : EventDataParser) (a : Nat)
    (hstate : p.state = .wantEvent) (hed : p.eventData = [])
    (hspec : midiEventSpecDataLen ((p.runningStatus &&& 0xf0) >>> 4) = some 1)
    (ha : a &&& 0x80 = 0) :
    feedByte p a =
      .ok ({ p with
              eventData := [],
              events := p.events ++
                [{ kind := .midiEvent, typeByte := p.runningStatus,
                   data := [a], timeDelta := 0 }],
              bytesFed := p.bytesFed + 1 },
           true) := by
  obtain ⟨hne1, hne2, hne3⟩ := byte_ne_specials a ha
  have h1 : ¬(a = 0xF0 ∨ a = 0xF7) := not_or.mpr ⟨hne2, hne3⟩
  have h2 : ¬(a &&& 0x80 ≠ 0) := by simp [ha]
  simp [feedByte, feedByteInternal, feedMIDIDataByte, hstate, hspec,
    hne1, h1, h2, hed]

theorem feedByte_data2_first (p : EventDataParser) (a : Nat)
    (hstate : p.state = .wantEvent) (hed : p.eventData = [])
    (hspec : midiEventSpecDataLen ((p.runningStatus &&& 0xf0) >>> 4) = some 2)
    (ha : a &&& 0x80 = 0) :
    feedByte p a =
      .ok ({ p with eventData := [a], bytesFed := p.bytesFed + 1 }, false) := by
  obtain ⟨hne1, hne2, hne3⟩ := byte_ne_specials a ha
  have h1 : ¬(a = 0xF0 ∨ a = 0xF7) := not_or.mpr ⟨hne2, hne3⟩
  have h2 : ¬(a &&& 0x80 ≠ 0) := by simp [ha]
  simp [feedByte, feedByteInternal, feedMIDIDataByte, hstate, hspec,
    hne1, h1, h2, hed]

theorem feedByte_data2_second (p : EventDataParser) (a b : Nat)
    (hstate : p.state = .wantEvent) (hed : p.eventData = [a])
    (hspec : midiEventSpecDataLen ((p.runningStatus &&& 0xf0) >>> 4) = some 2)
    (hb : b &&& 0x80 = 0) :
    feedByte p b =
      .ok ({ p with
              eventData := [],
              events := p.events ++
                [{ kind := .midiEvent, typeByte := p.runningStatus,
                   data := [a, b], timeDelta := 0 }],
              bytesFed := p.bytesFed + 1 },
           true) := by
  obtain ⟨hne1, hne2, hne3⟩ := byte_ne_specials b hb
  have h1 : ¬(b = 0xF0 ∨ b = 0xF7) := not_or.mpr ⟨hne2, hne3⟩
  have h2 : ¬(b &&& 0x80 ≠ 0) := by simp [hb]
  simp [feedByte, feedByteInternal, feedMIDIDataByte, hstate, hspec,
    hne1, h1, h2, hed]

end Midi

namespace Midi

/-! ### Status-byte facts and payload feed lemma -/

theorem status_bits (s c : Nat) (hc : s &&& 0xf0 = c) (hlt : c < 240)
    (hbit : c.testBit 7 = true) :
    s &&& 0x80 ≠ 0 ∧ s ≠ 0xFF ∧ s ≠ 0xF0 ∧ s ≠ 0xF7 := by
  refine ⟨?_, ?_, ?_, ?_⟩
  · have h1 : (s &&& 240).testBit 7 = true := by rw [hc]; exact hbit
    rw [Nat.testBit_and, (by decide : Nat.testBit 240 7 = true),
      Bool.and_true] at h1
    have h2 := Nat.and_two_pow s 7
    rw [h1] at h2
    norm_num at h2
    omega
  · rintro rfl
    rw [(by decide : (0xFF : Nat) &&& 0xf0 = 240)] at hc
    omega
  · rintro rfl
    rw [(by decide : (0xF0 : Nat) &&& 0xf0 = 240)] at hc
    omega
  · rintro rfl
    rw [(by decide : (0xF7 : Nat) &&& 0xf0 = 240)] at hc
    omega

theorem status_from_spec (s n : Nat)
    (hn : midiEventSpecDataLen ((s &&& 0xf0) >>> 4) = some n) :
    s &&& 0x80 ≠ 0 ∧ s ≠ 0xFF ∧ s ≠ 0xF0 ∧ s ≠ 0xF7 := by
  unfold midiEventSpecDataLen at hn
  split_ifs at hn with h1 h2 h3 h4 h5 h6 h7
  · exact status_bits s (8 <<< 4) (by rw [and240_shift s, h1]) (by decide)
      (by decide)
  · exact status_bits s (9 <<< 4) (by rw [and240_shift s, h2]) (by decide)
      (by decide)
  · exact status_bits s (10 <<< 4) (by rw [and240_shift s, h3]) (by decide)
      (by decide)
  · exact status_bits s (11 <<< 4) (by rw [and240_shift s, h4]) (by decide)
      (by decide)
  · exact status_bits s (12 <<< 4) (by rw [and240_shift s, h5]) (by decide)
      (by decide)
  · exact status_bits s (13 <<< 4) (by rw [and240_shift s, h6]) (by decide)
      (by decide)
  · exact status_bits s (14 <<< 4) (by rw [and240_shift s, h7]) (by decide)
      (by decide)

theorem specLen_cases (k n : Nat) (h : midiEventSpecDataLen k = some n) :
    n = 1 ∨ n = 2 := by
  unfold midiEventSpecDataLen at h
  split_ifs at h <;> simp_all

theorem list_len1 {l : List Nat} (h : l.length = 1) : ∃ a, l = [a] := by
  match l, h with
  | [a], _ => exact ⟨a, rfl⟩

theorem list_len2 {l : List Nat} (h : l.length = 2) : ∃ a b, l = [a, b] := by
  match l, h with
  | [a, b], _ => exact ⟨a, b, rfl⟩

theorem feed_midi_payload (p : EventDataParser) (d rest : List Nat)
    (hstate : p.state = .wantEvent) (hed : p.eventData = [])
    (hspec : midiEventSpecDataLen ((p.runningStatus &&& 0xf0) >>> 4) =
      some d.length)
    (hd : ∀ x ∈ d, x &&& 0x80 = 0) :
    feed p (d ++ rest) =
      feed { p with
              eventData := [],
              events := p.events ++
                [{ kind := .midiEvent, typeByte := p.runningStatus,
                   data := d, timeDelta := 0 }],
              bytesFed := p.bytesFed + d.length } rest := by
  rcases specLen_cases _ _ hspec with h1 | h2
  · obtain ⟨a, rfl⟩ := list_len1 h1
    have hf := feedByte_data1 p a hstate hed (by simpa using hspec)
      (hd a (by simp))
    simp only [List.cons_append, List.nil_append, feed, hf]
    rfl
  · obtain ⟨a, b, rfl⟩ := list_len2 h2
    have hf1 := feedByte_data2_first p a hstate hed (by simpa using hspec)
      (hd a (by simp))
    have hf2 := feedByte_data2_second
      { p with eventData := [a], bytesFed := p.bytesFed + 1 } a b
      (by simpa using hstate) rfl (by simpa using hspec)
      (hd b (by simp))
    simp only [List.cons_append, List.nil_append, feed, hf1, hf2]
    rfl

end Midi

namespace Midi

/-! ### C8: running status -/

/-- Counterexample to C8: after `0x90 0x3C 0x7F`, the running-status
continuation `0x3C 0x00` is a NoteOn with velocity 0 and therefore
presents as kind NoteOff — not the same kind as the first event's
presented NoteOn (the channel does agree). -/
theorem c8_counterexample :
    (feed {} [0x90, 0x3C, 0x7F, 0x3C, 0x00]).map (·.events) =
      .ok [{ kind := .midiEvent, typeByte := 0x90, data := [0x3C, 0x7F],
             timeDelta := 0 },
           { kind := .midiEvent, typeByte := 0x90, data := [0x3C, 0x00],
             timeDelta := 0 }] ∧
    presentEvent { kind := .midiEvent, typeByte := 0x90,
                   data := [0x3C, 0x7F] } =
      .ok (.midi { type := NoteOn, rawType := 0x90, channel := 0, key := 0x3C,
                   velocity := 0x7F, rawData := some [0x3C, 0x7F] }) ∧
    presentEvent { kind := .midiEvent, typeByte := 0x90,
                   data := [0x3C, 0x00] } =
      .ok (.midi { type := NoteOff, rawType := 0x90, channel := 0, key := 0x3C,
                   velocity := 0x40, rawData := some [0x3C, 0x00] }) ∧
    NoteOn ≠ NoteOff := by
  refine ⟨by decide, by decide, by decide, by decide⟩

/-- C8 as amended: feeding a status byte `s` (one the channel-voice table
knows) with payload `d1` and then a payload-only continuation `d2`
produces two raw events with the same status byte; both present with the
same channel, and with the same kind exactly when the NoteOn-velocity-0
rewrite applies to both or to neither payload. -/
theorem c8_running_status (p : EventDataParser) (s : Nat) (d1 d2 : List Nat)
    (hstate : p.state = .wantEvent) (hed : p.eventData = [])
    (hspec : midiEventSpecDataLen ((s &&& 0xf0) >>> 4) = some d1.length)
    (hlen : d2.length = d1.length)
    (hd1 : ∀ x ∈ d1, x &&& 0x80 = 0) (hd2 : ∀ x ∈ d2, x &&& 0x80 = 0) :
    ∃ p2, feed p (s :: (d1 ++ d2)) = .ok p2 ∧
      p2.events = p.events ++
        [{ kind := .midiEvent, typeByte := s, data := d1, timeDelta := 0 },
         { kind := .midiEvent, typeByte := s, data := d2, timeDelta := 0 }] ∧
      ∃ m1 m2,
        presentEvent { kind := .midiEvent, typeByte := s, data := d1,
                       timeDelta := 0 } = .ok (.midi m1) ∧
        presentEvent { kind := .midiEvent, typeByte := s, data := d2,
                       timeDelta := 0 } = .ok (.midi m2) ∧
        m1.channel = m2.channel ∧
        (m1.type = m2.type ↔
          ((s &&& 0xf0 = NoteOn ∧ d1.getD 1 0 = 0) ↔
           (s &&& 0xf0 = NoteOn ∧ d2.getD 1 0 = 0))) := by
  obtain ⟨hs80, hsff, hsf0, hsf7⟩ := status_from_spec s d1.length hspec
  have hst := feedByte_status p s hstate hed hs80 hsff hsf0 hsf7
  set P1 : EventDataParser :=
    { p with runningStatus := s, bytesFed := p.bytesFed + 1 } with hP1
  have h2 := feed_midi_payload P1 d1 d2 hstate hed (by simpa using hspec) hd1
  set P2 : EventDataParser :=
    { P1 with
        eventData := [],
        events := P1.events ++
          [{ kind := .midiEvent, typeByte := P1.runningStatus,
             data := d1, timeDelta := 0 }],
        bytesFed := P1.bytesFed + d1.length } with hP2
  have h3 := feed_midi_payload P2 d2 [] hstate rfl
    (by rw [hlen]; simpa using hspec) hd2
  rw [List.append_nil] at h3
  refine ⟨{ P2 with
              eventData := [],
              events := P2.events ++
                [{ kind := .midiEvent, typeByte := P2.runningStatus,
                   data := d2, timeDelta := 0 }],
              bytesFed := P2.bytesFed + d2.length }, ?_, ?_, ?_⟩
  · simp only [feed, hst]
    rw [h2, h3]
    rfl
  · simp
  · -- presentation facts
    have hspec2 := hspec
    unfold midiEventSpecDataLen at hspec2
    split_ifs at hspec2 with h8 h9 hA hB hC hD hE
    · -- 0x8: NoteOff, payload length 2
      have hc : s &&& 0xf0 = 128 := by rw [and240_shift s, h8]; decide
      have hc2 : 0xf0 &&& s = 128 := by rw [Nat.and_comm]; exact hc
      obtain ⟨a1, b1, rfl⟩ := list_len2 (show d1.length = 2 by injection hspec2 with hi; omega)
      obtain ⟨a2, b2, rfl⟩ := list_len2 (show d2.length = 2 by simp [hlen])
      refine ⟨{ type := 128, rawType := s, channel := 0x0f &&& s, key := a1,
                velocity := b1, rawData := some [a1, b1] },
              { type := 128, rawType := s, channel := 0x0f &&& s, key := a2,
                velocity := b2, rawData := some [a2, b2] },
              by simp [presentEvent, hc2, NoteOn, NoteOff],
              by simp [presentEvent, hc2, NoteOn, NoteOff], rfl, ?_⟩
      simp [hc, NoteOn]
    · -- 0x9: NoteOn, payload length 2, velocity-0 rewrite
      have hc : s &&& 0xf0 = 144 := by rw [and240_shift s, h9]; decide
      have hc2 : 0xf0 &&& s = 144 := by rw [Nat.and_comm]; exact hc
      obtain ⟨a1, b1, rfl⟩ := list_len2 (show d1.length = 2 by injection hspec2 with hi; omega)
      obtain ⟨a2, b2, rfl⟩ := list_len2 (show d2.length = 2 by simp [hlen])
      by_cases hb1 : b1 = 0 <;> by_cases hb2 : b2 = 0
      · subst hb1; subst hb2
        refine ⟨{ type := 128, rawType := s, channel := 0x0f &&& s, key := a1,
                  velocity := 0x40, rawData := some [a1, 0] },
                { type := 128, rawType := s, channel := 0x0f &&& s, key := a2,
                  velocity := 0x40, rawData := some [a2, 0] },
                by simp [presentEvent, hc2, NoteOn, NoteOff],
                by simp [presentEvent, hc2, NoteOn, NoteOff], rfl, ?_⟩
        simp [hc, NoteOn]
      · subst hb1
        refine ⟨{ type := 128, rawType := s, channel := 0x0f &&& s, key := a1,
                  velocity := 0x40, rawData := some [a1, 0] },
                { type := 144, rawType := s, channel := 0x0f &&& s, key := a2,
                  velocity := b2, rawData := some [a2, b2] },
                by simp [presentEvent, hc2, NoteOn, NoteOff],
                by simp [presentEvent, hc2, NoteOn, NoteOff, hb2], rfl, ?_⟩
        simp [hc, NoteOn, hb2]
      · subst hb2
        refine ⟨{ type := 144, rawType := s, channel := 0x0f &&& s, key := a1,
                  velocity := b1, rawData := some [a1, b1] },
                { type := 128, rawType := s, channel := 0x0f &&& s, key := a2,
                  velocity := 0x40, rawData := some [a2, 0] },
                by simp [presentEvent, hc2, NoteOn, NoteOff, hb1],
                by simp [presentEvent, hc2, NoteOn, NoteOff], rfl, ?_⟩
        simp [hc, NoteOn, hb1]
      · refine ⟨{ type := 144, rawType := s, channel := 0x0f &&& s, key := a1,
                  velocity := b1, rawData := some [a1, b1] },
                { type := 144, rawType := s, channel := 0x0f &&& s, key := a2,
                  velocity := b2, rawData := some [a2, b2] },
                by simp [presentEvent, hc2, NoteOn, NoteOff, hb1],
                by simp [presentEvent, hc2, NoteOn, NoteOff, hb2], rfl, ?_⟩
        simp [hc, NoteOn, hb1, hb2]
    · -- 0xA: Aftertouch, payload length 2
      have hc : s &&& 0xf0 = 160 := by rw [and240_shift s, hA]; decide
      have hc2 : 0xf0 &&& s = 160 := by rw [Nat.and_comm]; exact hc
      obtain ⟨a1, b1, rfl⟩ := list_len2 (show d1.length = 2 by injection hspec2 with hi; omega)
      obtain ⟨a2, b2, rfl⟩ := list_len2 (show d2.length = 2 by simp [hlen])
      refine ⟨{ type := 160, rawType := s, channel := 0x0f &&& s, key := a1,
                velocity := b1, rawData := some [a1, b1] },
              { type := 160, rawType := s, channel := 0x0f &&& s, key := a2,
                velocity := b2, rawData := some [a2, b2] },
              by simp [presentEvent, hc2, NoteOn, NoteOff, Aftertouch],
              by simp [presentEvent, hc2, NoteOn, NoteOff, Aftertouch],
              rfl, ?_⟩
      simp [hc, NoteOn]
    · -- 0xB: ControllerChange, payload length 2
      have hc : s &&& 0xf0 = 176 := by rw [and240_shift s, hB]; decide
      have hc2 : 0xf0 &&& s = 176 := by rw [Nat.and_comm]; exact hc
      obtain ⟨a1, b1, rfl⟩ := list_len2 (show d1.length = 2 by injection hspec2 with hi; omega)
      obtain ⟨a2, b2, rfl⟩ := list_len2 (show d2.length = 2 by simp [hlen])
      refine ⟨{ type := 176, rawType := s, channel := 0x0f &&& s,
                controllerNumber := a1, controllerValue := b1,
                rawData := some [a1, b1] },
              { type := 176, rawType := s, channel := 0x0f &&& s,
                controllerNumber := a2, controllerValue := b2,
                rawData := some [a2, b2] },
              by simp [presentEvent, hc2, NoteOn, NoteOff, Aftertouch,
                ControllerChange],
              by simp [presentEvent, hc2, NoteOn, NoteOff, Aftertouch,
                ControllerChange],
              rfl, ?_⟩
      simp [hc, NoteOn]
    · -- 0xC: ProgramChange, payload length 1
      have hc : s &&& 0xf0 = 192 := by rw [and240_shift s, hC]; decide
      have hc2 : 0xf0 &&& s = 192 := by rw [Nat.and_comm]; exact hc
      obtain ⟨a1, rfl⟩ := list_len1 (show d1.length = 1 by injection hspec2 with hi; omega)
      obtain ⟨a2, rfl⟩ := list_len1 (show d2.length = 1 by simp [hlen])
      refine ⟨{ type := 192, rawType := s, channel := 0x0f &&& s,
                programNumber := a1, rawData := some [a1] },
              { type := 192, rawType := s, channel := 0x0f &&& s,
                programNumber := a2, rawData := some [a2] },
              by simp [presentEvent, hc2, NoteOn, NoteOff, Aftertouch,
                ControllerChange, ProgramChange],
              by simp [presentEvent, hc2, NoteOn, NoteOff, Aftertouch,
                ControllerChange, ProgramChange],
              rfl, ?_⟩
      simp [hc, NoteOn]
    · -- 0xD: ChannelPressure, payload length 1
      have hc : s &&& 0xf0 = 208 := by rw [and240_shift s, hD]; decide
      have hc2 : 0xf0 &&& s = 208 := by rw [Nat.and_comm]; exact hc
      obtain ⟨a1, rfl⟩ := list_len1 (show d1.length = 1 by injection hspec2 with hi; omega)
      obtain ⟨a2, rfl⟩ := list_len1 (show d2.length = 1 by simp [hlen])
      refine ⟨{ type := 208, rawType := s, channel := 0x0f &&& s,
                velocity := a1, rawData := some [a1] },
              { type := 208, rawType := s, channel := 0x0f &&& s,
                velocity := a2, rawData := some [a2] },
              by simp [presentEvent, hc2, NoteOn, NoteOff, Aftertouch,
                ControllerChange, ProgramChange, ChannelPressure],
              by simp [presentEvent, hc2, NoteOn, NoteOff, Aftertouch,
                ControllerChange, ProgramChange, ChannelPressure],
              rfl, ?_⟩
      simp [hc, NoteOn]
    · -- 0xE: PitchBend, payload length 2
      have hc : s &&& 0xf0 = 224 := by rw [and240_shift s, hE]; decide
      have hc2 : 0xf0 &&& s = 224 := by rw [Nat.and_comm]; exact hc
      obtain ⟨a1, b1, rfl⟩ := list_len2 (show d1.length = 2 by injection hspec2 with hi; omega)
      obtain ⟨a2, b2, rfl⟩ := list_len2 (show d2.length = 2 by simp [hlen])
      refine ⟨{ type := 224, rawType := s, channel := 0x0f &&& s,
                rawData := some [a1, b1] },
              { type := 224, rawType := s, channel := 0x0f &&& s,
                rawData := some [a2, b2] },
              by simp [presentEvent, hc2, NoteOn, NoteOff, Aftertouch,
                ControllerChange, ProgramChange, ChannelPressure, PitchBend],
              by simp [presentEvent, hc2, NoteOn, NoteOff, Aftertouch,
                ControllerChange, ProgramChange, ChannelPressure, PitchBend],
              rfl, ?_⟩
      simp [hc, NoteOn]

end Midi

namespace Midi

/-- Witness for C8's amended statement: `0x90 0x3C 0x7F` followed by the
payload-only `0x3C 0x7F` (spec scenario E3). -/
theorem c8_running_status_witness :
    ∃ p2, feed {} (0x90 :: ([0x3C, 0x7F] ++ [0x3C, 0x7F])) = .ok p2 ∧
      p2.events = ({} : EventDataParser).events ++
        [{ kind := .midiEvent, typeByte := 0x90, data := [0x3C, 0x7F],
           timeDelta := 0 },
         { kind := .midiEvent, typeByte := 0x90, data := [0x3C, 0x7F],
           timeDelta := 0 }] ∧
      ∃ m1 m2,
        presentEvent { kind := .midiEvent, typeByte := 0x90,
                       data := [0x3C, 0x7F], timeDelta := 0 } =
          .ok (.midi m1) ∧
        presentEvent { kind := .midiEvent, typeByte := 0x90,
                       data := [0x3C, 0x7F], timeDelta := 0 } =
          .ok (.midi m2) ∧
        m1.channel = m2.channel ∧
        (m1.type = m2.type ↔
          ((0x90 &&& 0xf0 = NoteOn ∧ [0x3C, 0x7F].getD 1 0 = 0) ↔
           (0x90 &&& 0xf0 = NoteOn ∧ [0x3C, 0x7F].getD 1 0 = 0))) :=
  c8_running_status {} 0x90 [0x3C, 0x7F] [0x3C, 0x7F] rfl rfl (by decide)
    rfl (by decide) (by decide)

end Midi

namespace Midi

/-! ### Byte-level lemmas for meta and sysex framing -/

theorem runAux_step_notdone (p p2 : EventDataParser) (began : Bool)
    (b : Nat) (rest : List Nat) (h : feedByte p b = .ok (p2, false)) :
    readSingleEventAux p began (b :: rest) = readSingleEventAux p2 true rest := by
  simp [readSingleEventAux, h]

theorem runAux_step_done (p p2 : EventDataParser) (began : Bool)
    (b : Nat) (rest : List Nat) (h : feedByte p b = .ok (p2, true)) :
    readSingleEventAux p began (b :: rest) = .ok (p2, rest) := by
  simp [readSingleEventAux, h]

theorem feedByte_metaFF (p : EventDataParser)
    (hstate : p.state = .wantEvent) :
    feedByte p 0xFF =
      .ok ({ p with state := .wantMetaType, bytesFed := p.bytesFed + 1 },
        false) := by
  simp [feedByte, feedByteInternal, hstate]

theorem feedByte_sysexStart (p : EventDataParser) (f : Nat)
    (hstate : p.state = .wantEvent) (hf : f = 0xF0 ∨ f = 0xF7) :
    feedByte p f =
      .ok ({ p with
              currentSysexType := f,
              state := .wantSysexLength,
              sysexLength := 0,
              sysexData := [],
              bytesFed := p.bytesFed + 1 },
        false) := by
  have hne : f ≠ 0xFF := by rcases hf with rfl | rfl <;> decide
  simp [feedByte, feedByteInternal, hstate, hne, hf]

theorem feedByte_metaType (p : EventDataParser) (t : Nat)
    (hstate : p.state = .wantMetaType) :
    feedByte p t =
      .ok ({ p with
              metaEventType := t,
              state := .wantMetaLength,
              metaLength := 0,
              eventData := [],
              bytesFed := p.bytesFed + 1 },
        false) := by
  simp [feedByte, feedByteInternal, hstate]

theorem feedByte_metaLength (p : EventDataParser) (b : Nat)
    (hstate : p.state = .wantMetaLength)
    (hml : ((p.metaLength <<< 7) ||| (b &&& 0x7F)) % 2 ^ 64 ≠ 0) :
    feedByte p b =
      .ok ({ p with
              metaLength := ((p.metaLength <<< 7) ||| (b &&& 0x7F)) % 2 ^ 64,
              state := if b &&& 0x80 = 0 then .wantMetaData
                       else .wantMetaLength,
              bytesFed := p.bytesFed + 1 },
        false) := by
  simp only [feedByte, feedByteInternal, hstate]
  rw [if_neg hml]

theorem feedByte_metaLength_emit (p : EventDataParser) (b : Nat)
    (hstate : p.state = .wantMetaLength)
    (hml : ((p.metaLength <<< 7) ||| (b &&& 0x7F)) % 2 ^ 64 = 0) :
    feedByte p b =
      .ok ({ p with
              metaLength := 0,
              state := .wantEvent,
              eventData := [],
              events := p.events ++
                [{ kind := .metaEvent, typeByte := p.metaEventType,
                   data := p.eventData, timeDelta := 0 }],
              bytesFed := p.bytesFed + 1 },
        true) := by
  simp only [feedByte, feedByteInternal, hstate]
  rw [if_pos hml, ← hml]

theorem feedByte_metaData_go (p : EventDataParser) (b : Nat)
    (hstate : p.state = .wantMetaData)
    (hbound : p.metaLength < 2 ^ 63)
    (hlt : p.eventData.length + 1 ≠ p.metaLength) :
    feedByte p b =
      .ok ({ p with
              eventData := p.eventData ++ [b],
              bytesFed := p.bytesFed + 1 },
        false) := by
  simp only [feedByte, feedByteInternal, hstate]
  rw [if_neg (by rw [int_len_eq_iff _ _ hbound]; simpa using hlt)]

theorem feedByte_metaData_done (p : EventDataParser) (b : Nat)
    (hstate : p.state = .wantMetaData)
    (hbound : p.metaLength < 2 ^ 63)
    (heq : p.eventData.length + 1 = p.metaLength) :
    feedByte p b =
      .ok ({ p with
              eventData := [],
              state := .wantEvent,
              events := p.events ++
                [{ kind := .metaEvent, typeByte := p.metaEventType,
                   data := p.eventData ++ [b], timeDelta := 0 }],
              bytesFed := p.bytesFed + 1 },
        true) := by
  simp only [feedByte, feedByteInternal, hstate]
  rw [if_pos (by rw [int_len_eq_iff _ _ hbound]; simpa using heq)]

theorem feedByte_sysexLength (p : EventDataParser) (b : Nat)
    (hstate : p.state = .wantSysexLength)
    (hsl : ((p.sysexLength <<< 7) ||| (b &&& 0x7F)) % 2 ^ 64 ≠ 0) :
    feedByte p b =
      .ok ({ p with
              sysexLength := ((p.sysexLength <<< 7) ||| (b &&& 0x7F)) % 2 ^ 64,
              state := if b &&& 0x80 = 0 then .wantSysexData
                       else .wantSysexLength,
              bytesFed := p.bytesFed + 1 },
        false) := by
  simp only [feedByte, feedByteInternal, hstate]
  rw [if_neg hsl]

theorem feedByte_sysexLength_emit (p : EventDataParser) (b : Nat)
    (hstate : p.state = .wantSysexLength)
    (hsl : ((p.sysexLength <<< 7) ||| (b &&& 0x7F)) % 2 ^ 64 = 0) :
    feedByte p b =
      .ok ({ p with
              sysexLength := 0,
              state := .wantEvent,
              sysexData := [],
              currentSysexType := 0,
              events := p.events ++
                [{ kind := .sysexEvent, typeByte := p.currentSysexType,
                   data := p.sysexData, timeDelta := 0 }],
              bytesFed := p.bytesFed + 1 },
        true) := by
  simp only [feedByte, feedByteInternal, hstate]
  rw [if_pos hsl, ← hsl]

theorem feedByte_sysexData_go (p : EventDataParser) (b : Nat)
    (hstate : p.state = .wantSysexData)
    (hbound : p.sysexLength < 2 ^ 63)
    (hlt : p.sysexData.length + 1 ≠ p.sysexLength) :
    feedByte p b =
      .ok ({ p with
              sysexData := p.sysexData ++ [b],
              bytesFed := p.bytesFed + 1 },
        false) := by
  simp only [feedByte, feedByteInternal, hstate]
  rw [if_neg (by rw [int_len_eq_iff _ _ hbound]; simpa using hlt)]

theorem feedByte_sysexData_done (p : EventDataParser) (b : Nat)
    (hstate : p.state = .wantSysexData)
    (hbound : p.sysexLength < 2 ^ 63)
    (heq : p.sysexData.length + 1 = p.sysexLength) :
    feedByte p b =
      .ok ({ p with
              sysexData := [],
              state := .wantEvent,
              currentSysexType := 0,
              events := p.events ++
                [{ kind := .sysexEvent, typeByte := p.currentSysexType,
                   data := p.sysexData ++ [b], timeDelta := 0 }],
              bytesFed := p.bytesFed + 1 },
        true) := by
  simp only [feedByte, feedByteInternal, hstate]
  rw [if_pos (by rw [int_len_eq_iff _ _ hbound]; simpa using heq)]

end Midi

namespace Midi

/-! ### Feeding a VLQ's continuation bytes in the length states -/

theorem runAux_metaVlqMarked (m : Nat) :
    ∀ bf rs ed met ml cst slen sd ev (rest : List Nat),
      ml * 128 ^ (varintSeptets m).length + m < 2 ^ 64 →
      readSingleEventAux
          ⟨.wantMetaLength, bf, rs, ed, met, ml, cst, slen, sd, ev⟩ true
          ((varintSeptets m).reverse.map (· ||| 128) ++ rest) =
        readSingleEventAux
          ⟨.wantMetaLength, bf + (varintSeptets m).length, rs, ed, met,
           ml * 128 ^ (varintSeptets m).length + m, cst, slen, sd, ev⟩
          true rest := by
  induction m using Nat.strong_induction_on with
  | _ m ih =>
    intro bf rs ed met ml cst slen sd ev rest hbound
    rcases Nat.eq_zero_or_pos m with hm | hm
    · subst hm
      simp [varintSeptets, varintSeptetsAux]
    · rw [varintSeptets_pos m hm] at hbound ⊢
      simp only [List.reverse_cons, List.map_append, List.map_cons,
        List.map_nil, List.append_assoc, List.singleton_append,
        List.length_cons, List.length_reverse] at hbound ⊢
      have hdiv : m / 128 < m := Nat.div_lt_self hm (by omega)
      have hstep : (ml * 128 ^ (varintSeptets (m / 128)).length + m / 128)
          * 128 + m % 128 =
          ml * 128 ^ ((varintSeptets (m / 128)).length + 1) + m := by
        have hmdm : m / 128 * 128 + m % 128 = m := by omega
        calc (ml * 128 ^ (varintSeptets (m / 128)).length + m / 128) * 128 +
              m % 128
            = ml * 128 ^ ((varintSeptets (m / 128)).length + 1) +
              (m / 128 * 128 + m % 128) := by rw [pow_succ]; ring
          _ = _ := by rw [hmdm]
      have hBbound : ml * 128 ^ (varintSeptets (m / 128)).length + m / 128 <
          2 ^ 64 := by
        have h2 : ml * 128 ^ (varintSeptets (m / 128)).length + m / 128 ≤
            (ml * 128 ^ (varintSeptets (m / 128)).length + m / 128) * 128 +
              m % 128 := by
          have h3 := Nat.le_mul_of_pos_right
            (ml * 128 ^ (varintSeptets (m / 128)).length + m / 128)
            (show 0 < 128 by omega)
          omega
        rw [hstep] at h2
        omega
      rw [ih (m / 128) hdiv bf rs ed met ml cst slen sd ev
        ((m % 128 ||| 128) :: rest) hBbound]
      have hval : (((ml * 128 ^ (varintSeptets (m / 128)).length + m / 128)
          <<< 7) ||| ((m % 128 ||| 128) &&& 0x7F)) % 2 ^ 64 =
          ml * 128 ^ ((varintSeptets (m / 128)).length + 1) + m := by
        rw [lor128_and127 _ (by omega), shiftLeft7_lor _ _ (by omega)]
        rw [show 128 * (ml * 128 ^ (varintSeptets (m / 128)).length +
            m / 128) + m % 128 =
          (ml * 128 ^ (varintSeptets (m / 128)).length + m / 128) * 128 +
            m % 128 by ring]
        rw [hstep]
        exact Nat.mod_eq_of_lt hbound
      have hml2 : (((⟨.wantMetaLength, bf + (varintSeptets (m / 128)).length,
          rs, ed, met, ml * 128 ^ (varintSeptets (m / 128)).length + m / 128,
          cst, slen, sd, ev⟩ : EventDataParser).metaLength <<< 7)
          ||| ((m % 128 ||| 128) &&& 0x7F)) % 2 ^ 64 ≠ 0 := by
        show (((ml * 128 ^ (varintSeptets (m / 128)).length + m / 128) <<< 7)
          ||| ((m % 128 ||| 128) &&& 0x7F)) % 2 ^ 64 ≠ 0
        rw [hval]
        omega
      rw [runAux_step_notdone _ _ true (m % 128 ||| 128) rest
        (feedByte_metaLength _ _ rfl hml2)]
      congr 1
      simp only [EventDataParser.mk.injEq, and_true, true_and]
      refine ⟨?_, by omega, ?_⟩
      · exact if_neg (by simpa using lor128_and128 (m % 128) (by omega))
      · show (((ml * 128 ^ (varintSeptets (m / 128)).length + m / 128) <<< 7)
          ||| ((m % 128 ||| 128) &&& 0x7F)) % 2 ^ 64 = _
        rw [hval]

end Midi

namespace Midi

theorem runAux_sysexVlqMarked (m : Nat) :
    ∀ bf rs ed met ml cst slen sd ev (rest : List Nat),
      slen * 128 ^ (varintSeptets m).length + m < 2 ^ 64 →
      readSingleEventAux
          ⟨.wantSysexLength, bf, rs, ed, met, ml, cst, slen, sd, ev⟩ true
          ((varintSeptets m).reverse.map (· ||| 128) ++ rest) =
        readSingleEventAux
          ⟨.wantSysexLength, bf + (varintSeptets m).length, rs, ed, met,
           ml, cst, slen * 128 ^ (varintSeptets m).length + m, sd, ev⟩
          true rest := by
  induction m using Nat.strong_induction_on with
  | _ m ih =>
    intro bf rs ed met ml cst slen sd ev rest hbound
    rcases Nat.eq_zero_or_pos m with hm | hm
    · subst hm
      simp [varintSeptets, varintSeptetsAux]
    · rw [varintSeptets_pos m hm] at hbound ⊢
      simp only [List.reverse_cons, List.map_append, List.map_cons,
        List.map_nil, List.append_assoc, List.singleton_append,
        List.length_cons, List.length_reverse] at hbound ⊢
      have hdiv : m / 128 < m := Nat.div_lt_self hm (by omega)
      have hstep : (slen * 128 ^ (varintSeptets (m / 128)).length + m / 128)
          * 128 + m % 128 =
          slen * 128 ^ ((varintSeptets (m / 128)).length + 1) + m := by
        have hmdm : m / 128 * 128 + m % 128 = m := by omega
        calc (slen * 128 ^ (varintSeptets (m / 128)).length + m / 128) * 128 +
              m % 128
            = slen * 128 ^ ((varintSeptets (m / 128)).length + 1) +
              (m / 128 * 128 + m % 128) := by rw [pow_succ]; ring
          _ = _ := by rw [hmdm]
      have hBbound : slen * 128 ^ (varintSeptets (m / 128)).length + m / 128 <
          2 ^ 64 := by
        have h2 : slen * 128 ^ (varintSeptets (m / 128)).length + m / 128 ≤
            (slen * 128 ^ (varintSeptets (m / 128)).length + m / 128) * 128 +
              m % 128 := by
          have h3 := Nat.le_mul_of_pos_right
            (slen * 128 ^ (varintSeptets (m / 128)).length + m / 128)
            (show 0 < 128 by omega)
          omega
        rw [hstep] at h2
        omega
      rw [ih (m / 128) hdiv bf rs ed met ml cst slen sd ev
        ((m % 128 ||| 128) :: rest) hBbound]
      have hval : (((slen * 128 ^ (varintSeptets (m / 128)).length + m / 128)
          <<< 7) ||| ((m % 128 ||| 128) &&& 0x7F)) % 2 ^ 64 =
          slen * 128 ^ ((varintSeptets (m / 128)).length + 1) + m := by
        rw [lor128_and127 _ (by omega), shiftLeft7_lor _ _ (by omega)]
        rw [show 128 * (slen * 128 ^ (varintSeptets (m / 128)).length +
            m / 128) + m % 128 =
          (slen * 128 ^ (varintSeptets (m / 128)).length + m / 128) * 128 +
            m % 128 by ring]
        rw [hstep]
        exact Nat.mod_eq_of_lt hbound
      have hml2 : (((⟨.wantSysexLength, bf + (varintSeptets (m / 128)).length,
          rs, ed, met, ml, cst,
          slen * 128 ^ (varintSeptets (m / 128)).length + m / 128, sd, ev⟩ :
          EventDataParser).sysexLength <<< 7)
          ||| ((m % 128 ||| 128) &&& 0x7F)) % 2 ^ 64 ≠ 0 := by
        show (((slen * 128 ^ (varintSeptets (m / 128)).length + m / 128) <<< 7)
          ||| ((m % 128 ||| 128) &&& 0x7F)) % 2 ^ 64 ≠ 0
        rw [hval]
        omega
      rw [runAux_step_notdone _ _ true (m % 128 ||| 128) rest
        (feedByte_sysexLength _ _ rfl hml2)]
      congr 1
      simp only [EventDataParser.mk.injEq, and_true, true_and]
      refine ⟨?_, by omega, ?_⟩
      · exact if_neg (by simpa using lor128_and128 (m % 128) (by omega))
      · show (((slen * 128 ^ (varintSeptets (m / 128)).length + m / 128) <<< 7)
          ||| ((m % 128 ||| 128) &&& 0x7F)) % 2 ^ 64 = _
        rw [hval]

/-! ### Feeding the data phase -/

theorem runAux_metaData (d2 : List Nat) :
    ∀ (p : EventDataParser) (rest : List Nat), p.state = .wantMetaData →
      p.metaLength < 2 ^ 63 →
      d2 ≠ [] → p.eventData.length + d2.length = p.metaLength →
      readSingleEventAux p true (d2 ++ rest) =
        .ok ({ p with
                eventData := [],
                state := .wantEvent,
                events := p.events ++
                  [{ kind := .metaEvent, typeByte := p.metaEventType,
                     data := p.eventData ++ d2, timeDelta := 0 }],
                bytesFed := p.bytesFed + d2.length },
          rest) := by
  induction d2 with
  | nil => intro p rest _ _ hne _; exact absurd rfl hne
  | cons b d2 ih =>
    intro p rest hstate hbound _ hlen
    cases d2 with
    | nil =>
      rw [List.singleton_append,
        runAux_step_done _ _ true b rest
          (feedByte_metaData_done p b hstate hbound (by simpa using hlen))]
      simp
    | cons c d3 =>
      rw [List.cons_append,
        runAux_step_notdone _ _ true b ((c :: d3) ++ rest)
          (feedByte_metaData_go p b hstate hbound
            (by simp at hlen ⊢; omega))]
      rw [ih _ rest (by simp [hstate]) (by simpa using hbound) (by simp)
        (by simp at hlen ⊢; omega)]
      simp only [EventDataParser.mk.injEq]
      congr 2 <;> simp <;> omega

theorem runAux_sysexData (d2 : List Nat) :
    ∀ (p : EventDataParser) (rest : List Nat), p.state = .wantSysexData →
      p.sysexLength < 2 ^ 63 →
      d2 ≠ [] → p.sysexData.length + d2.length = p.sysexLength →
      readSingleEventAux p true (d2 ++ rest) =
        .ok ({ p with
                sysexData := [],
                state := .wantEvent,
                currentSysexType := 0,
                events := p.events ++
                  [{ kind := .sysexEvent, typeByte := p.currentSysexType,
                     data := p.sysexData ++ d2, timeDelta := 0 }],
                bytesFed := p.bytesFed + d2.length },
          rest) := by
  induction d2 with
  | nil => intro p rest _ _ hne _; exact absurd rfl hne
  | cons b d2 ih =>
    intro p rest hstate hbound _ hlen
    cases d2 with
    | nil =>
      rw [List.singleton_append,
        runAux_step_done _ _ true b rest
          (feedByte_sysexData_done p b hstate hbound (by simpa using hlen))]
      simp
    | cons c d3 =>
      rw [List.cons_append,
        runAux_step_notdone _ _ true b ((c :: d3) ++ rest)
          (feedByte_sysexData_go p b hstate hbound
            (by simp at hlen ⊢; omega))]
      rw [ih _ rest (by simp [hstate]) (by simpa using hbound) (by simp)
        (by simp at hlen ⊢; omega)]
      simp only [EventDataParser.mk.injEq]
      congr 2 <;> simp <;> omega

end Midi

namespace Midi

/-! ### Running a single well-formed event through the parser -/

theorem runSingle_midi (p : EventDataParser) (s : Nat) (d rest : List Nat)
    (began : Bool)
    (hstate : p.state = .wantEvent) (hed : p.eventData = [])
    (hspec : midiEventSpecDataLen ((s &&& 0xf0) >>> 4) = some d.length)
    (hd : ∀ x ∈ d, x &&& 0x80 = 0) :
    readSingleEventAux p began (s :: (d ++ rest)) =
      .ok ({ p with
              runningStatus := s,
              eventData := [],
              events := p.events ++
                [{ kind := .midiEvent, typeByte := s, data := d,
                   timeDelta := 0 }],
              bytesFed := p.bytesFed + (1 + d.length) },
        rest) := by
  obtain ⟨hs80, hsff, hsf0, hsf7⟩ := status_from_spec s d.length hspec
  rw [runAux_step_notdone _ _ began s (d ++ rest)
    (feedByte_status p s hstate hed hs80 hsff hsf0 hsf7)]
  rcases specLen_cases _ _ hspec with h1 | h2
  · obtain ⟨a, rfl⟩ := list_len1 h1
    rw [List.singleton_append,
      runAux_step_done _ _ true a rest
        (feedByte_data1
          { p with runningStatus := s, bytesFed := p.bytesFed + 1 } a
          hstate hed (by simpa using hspec) (hd a (by simp)))]
    simp
  · obtain ⟨a, b, rfl⟩ := list_len2 h2
    rw [List.cons_append, List.singleton_append,
      runAux_step_notdone _ _ true a (b :: rest)
        (feedByte_data2_first
          { p with runningStatus := s, bytesFed := p.bytesFed + 1 } a
          hstate hed (by simpa using hspec) (hd a (by simp)))]
    rw [runAux_step_done _ _ true b rest
      (feedByte_data2_second
        { p with runningStatus := s, eventData := [a],
                 bytesFed := p.bytesFed + 1 + 1 } a b
        hstate rfl (by simpa using hspec) (hd b (by simp)))]
    simp

end Midi

namespace Midi

theorem feedByte_metaLength_final (p : EventDataParser) (b : Nat)
    (hstate : p.state = .wantMetaLength)
    (hml : ((p.metaLength <<< 7) ||| (b &&& 0x7F)) % 2 ^ 64 ≠ 0)
    (hb : b &&& 0x80 = 0) :
    feedByte p b =
      .ok ({ p with
              metaLength := ((p.metaLength <<< 7) ||| (b &&& 0x7F)) % 2 ^ 64,
              state := .wantMetaData,
              bytesFed := p.bytesFed + 1 },
        false) := by
  rw [feedByte_metaLength p b hstate hml, if_pos hb]

theorem feedByte_sysexLength_final (p : EventDataParser) (b : Nat)
    (hstate : p.state = .wantSysexLength)
    (hsl : ((p.sysexLength <<< 7) ||| (b &&& 0x7F)) % 2 ^ 64 ≠ 0)
    (hb : b &&& 0x80 = 0) :
    feedByte p b =
      .ok ({ p with
              sysexLength := ((p.sysexLength <<< 7) ||| (b &&& 0x7F)) % 2 ^ 64,
              state := .wantSysexData,
              bytesFed := p.bytesFed + 1 },
        false) := by
  rw [feedByte_sysexLength p b hstate hsl, if_pos hb]

theorem runSingle_meta (p : EventDataParser) (t : Nat) (d rest : List Nat)
    (began : Bool) (hstate : p.state = .wantEvent)
    (hdlen : d.length < 2 ^ 63) :
    readSingleEventAux p began
        (0xFF :: t :: (encodeVarint d.length ++ (d ++ rest))) =
      .ok ({ p with
              state := .wantEvent,
              eventData := [],
              metaEventType := t,
              metaLength := d.length,
              events := p.events ++
                [{ kind := .metaEvent, typeByte := t, data := d,
                   timeDelta := 0 }],
              bytesFed := p.bytesFed +
                (2 + (encodeVarint d.length).length + d.length) },
        rest) := by
  rcases p with ⟨st, bf, rs, ed, met, ml, cst, slen, sd, ev⟩
  simp only at hstate
  subst hstate
  rw [runAux_step_notdone _ _ began 0xFF
    (t :: (encodeVarint d.length ++ (d ++ rest)))
    (feedByte_metaFF ⟨.wantEvent, bf, rs, ed, met, ml, cst, slen, sd, ev⟩
      rfl)]
  show readSingleEventAux
      ⟨.wantMetaType, bf + 1, rs, ed, met, ml, cst, slen, sd, ev⟩ true
      (t :: (encodeVarint d.length ++ (d ++ rest))) = _
  rw [runAux_step_notdone _ _ true t (encodeVarint d.length ++ (d ++ rest))
    (feedByte_metaType ⟨.wantMetaType, bf + 1, rs, ed, met, ml, cst, slen,
      sd, ev⟩ t rfl)]
  show readSingleEventAux
      ⟨.wantMetaLength, bf + 1 + 1, rs, [], t, 0, cst, slen, sd, ev⟩ true
      (encodeVarint d.length ++ (d ++ rest)) = _
  cases d with
  | nil =>
    show readSingleEventAux _ true ([0] ++ ([] ++ rest)) = _
    simp only [List.singleton_append, List.nil_append]
    rw [runAux_step_done _ _ true 0 rest
      (feedByte_metaLength_emit
        ⟨.wantMetaLength, bf + 1 + 1, rs, [], t, 0, cst, slen, sd, ev⟩ 0
        rfl (by simp))]
    simp [encodeVarint]
  | cons x xs =>
    have hn : 0 < (x :: xs).length := by simp
    rw [encodeVarint_pos _ hn, List.append_assoc]
    rw [runAux_metaVlqMarked ((x :: xs).length / 128) (bf + 1 + 1) rs [] t 0
      cst slen sd ev ([(x :: xs).length % 128] ++ ((x :: xs) ++ rest))
      (by
        simp only [zero_mul, zero_add]
        have h1 := Nat.div_le_self (x :: xs).length 128
        omega)]
    simp only [zero_mul, zero_add, List.singleton_append]
    have hmod : (x :: xs).length % 128 &&& 0x7F = (x :: xs).length % 128 := by
      rw [and127_eq_mod]
      omega
    have harith : (((((x :: xs).length / 128) <<< 7)
        ||| ((x :: xs).length % 128 &&& 0x7F)) % 2 ^ 64) =
        (x :: xs).length := by
      rw [hmod, shiftLeft7_lor _ _ (by omega)]
      have h2 : 128 * ((x :: xs).length / 128) + (x :: xs).length % 128 =
          (x :: xs).length := by omega
      rw [h2]
      exact Nat.mod_eq_of_lt (by omega)
    have hml2 : (((((x :: xs).length / 128) <<< 7)
        ||| ((x :: xs).length % 128 &&& 0x7F)) % 2 ^ 64) ≠ 0 := by
      rw [harith]
      have h1 : 1 ≤ (x :: xs).length := by simp
      omega
    rw [runAux_step_notdone _ _ true ((x :: xs).length % 128)
      ((x :: xs) ++ rest)
      (feedByte_metaLength_final
        ⟨.wantMetaLength,
         bf + 1 + 1 + (varintSeptets ((x :: xs).length / 128)).length, rs,
         [], t, (x :: xs).length / 128, cst, slen, sd, ev⟩
        ((x :: xs).length % 128) rfl hml2
        (and128_of_lt _ (by omega)))]
    simp only [harith]
    rw [runAux_metaData (x :: xs)
      ⟨.wantMetaData,
       bf + 1 + 1 + (varintSeptets ((x :: xs).length / 128)).length + 1, rs,
       [], t, (x :: xs).length, cst, slen, sd, ev⟩
      rest rfl hdlen (by simp) (by simp)]
    simp only [EventDataParser.mk.injEq, Except.ok.injEq, Prod.mk.injEq,
      List.nil_append, and_true, true_and, List.length_append,
      List.length_map, List.length_reverse, List.length_cons,
      List.length_nil]
    omega

end Midi


namespace Midi

theorem runSingle_sysex (p : EventDataParser) (f : Nat) (tl rest : List Nat)
    (began : Bool) (hstate : p.state = .wantEvent)
    (hf : f = 0xF0 ∨ f = 0xF7) (hdlen : tl.length < 2 ^ 63) :
    readSingleEventAux p began
        (f :: (encodeVarint tl.length ++ (tl ++ rest))) =
      .ok ({ p with
              state := .wantEvent,
              sysexLength := tl.length,
              sysexData := [],
              currentSysexType := 0,
              events := p.events ++
                [{ kind := .sysexEvent, typeByte := f, data := tl,
                   timeDelta := 0 }],
              bytesFed := p.bytesFed +
                (1 + (encodeVarint tl.length).length + tl.length) },
        rest) := by
  rcases p with ⟨st, bf, rs, ed, met, ml, cst, slen, sd, ev⟩
  simp only at hstate
  subst hstate
  rw [runAux_step_notdone _ _ began f (encodeVarint tl.length ++ (tl ++ rest))
    (feedByte_sysexStart ⟨.wantEvent, bf, rs, ed, met, ml, cst, slen, sd, ev⟩
      f rfl hf)]
  show readSingleEventAux
      ⟨.wantSysexLength, bf + 1, rs, ed, met, ml, f, 0, [], ev⟩ true
      (encodeVarint tl.length ++ (tl ++ rest)) = _
  cases tl with
  | nil =>
    show readSingleEventAux _ true ([0] ++ ([] ++ rest)) = _
    simp only [List.singleton_append, List.nil_append]
    rw [runAux_step_done _ _ true 0 rest
      (feedByte_sysexLength_emit
        ⟨.wantSysexLength, bf + 1, rs, ed, met, ml, f, 0, [], ev⟩ 0
        rfl (by simp))]
    simp [encodeVarint]
  | cons x xs =>
    have hn : 0 < (x :: xs).length := by simp
    rw [encodeVarint_pos _ hn, List.append_assoc]
    rw [runAux_sysexVlqMarked ((x :: xs).length / 128) (bf + 1) rs ed met ml
      f 0 [] ev ([(x :: xs).length % 128] ++ ((x :: xs) ++ rest))
      (by
        simp only [zero_mul, zero_add]
        have h1 := Nat.div_le_self (x :: xs).length 128
        omega)]
    simp only [zero_mul, zero_add, List.singleton_append]
    have hmod : (x :: xs).length % 128 &&& 0x7F = (x :: xs).length % 128 := by
      rw [and127_eq_mod]
      omega
    have harith : (((((x :: xs).length / 128) <<< 7)
        ||| ((x :: xs).length % 128 &&& 0x7F)) % 2 ^ 64) =
        (x :: xs).length := by
      rw [hmod, shiftLeft7_lor _ _ (by omega)]
      have h2 : 128 * ((x :: xs).length / 128) + (x :: xs).length % 128 =
          (x :: xs).length := by omega
      rw [h2]
      exact Nat.mod_eq_of_lt (by omega)
    have hml2 : (((((x :: xs).length / 128) <<< 7)
        ||| ((x :: xs).length % 128 &&& 0x7F)) % 2 ^ 64) ≠ 0 := by
      rw [harith]
      have h1 : 1 ≤ (x :: xs).length := by simp
      omega
    rw [runAux_step_notdone _ _ true ((x :: xs).length % 128)
      ((x :: xs) ++ rest)
      (feedByte_sysexLength_final
        ⟨.wantSysexLength,
         bf + 1 + (varintSeptets ((x :: xs).length / 128)).length, rs, ed,
         met, ml, f, (x :: xs).length / 128, [], ev⟩
        ((x :: xs).length % 128) rfl hml2
        (and128_of_lt _ (by omega)))]
    simp only [harith]
    rw [runAux_sysexData (x :: xs)
      ⟨.wantSysexData,
       bf + 1 + (varintSeptets ((x :: xs).length / 128)).length + 1, rs, ed,
       met, ml, f, (x :: xs).length, [], ev⟩
      rest rfl hdlen (by simp) (by simp)]
    simp only [EventDataParser.mk.injEq, Except.ok.injEq, Prod.mk.injEq,
      List.nil_append, and_true, true_and, List.length_append,
      List.length_map, List.length_reverse, List.length_cons,
      List.length_nil]
    omega

end Midi

namespace Midi

theorem type_channel_bits (T c : Nat)
    (hT : T = 0x80 ∨ T = 0x90 ∨ T = 0xA0 ∨ T = 0xB0 ∨ T = 0xC0 ∨
      T = 0xD0 ∨ T = 0xE0)
    (hc : c < 16) :
    (T % 256 ||| c % 256) = T ||| c ∧
    0xf0 &&& (T ||| c) = T ∧
    0x0f &&& (T ||| c) = c ∧
    ((T ||| c) &&& 0xf0) >>> 4 = T >>> 4 := by
  rcases hT with rfl | rfl | rfl | rfl | rfl | rfl | rfl <;>
    interval_cases c <;>
    exact ⟨by decide, by decide, by decide, by decide⟩

theorem wellFormedMidi_elim (m : MIDIEvent) (h : wellFormedMidi m = true) :
    m.channel < 16 ∧ m.rawType = m.type ||| m.channel ∧
    ∃ d, m.rawData = some d ∧
      (m.type % 256 ||| m.channel % 256) = m.type ||| m.channel ∧
      midiEventSpecDataLen (((m.type ||| m.channel) &&& 0xf0) >>> 4) =
        some d.length ∧
      (∀ x ∈ d, x < 128) ∧
      presentEvent { kind := .midiEvent, typeByte := m.type ||| m.channel,
                     data := d, timeDelta := 0 } = .ok (.midi m) := by
  rcases m with ⟨ty, rawTy, ch, k, v, cn, cv, pn, rd⟩
  rw [wellFormedMidi, Bool.and_eq_true, Bool.and_eq_true] at h
  obtain ⟨⟨hch, hraw⟩, h3⟩ := h
  simp only [decide_eq_true_eq] at hch hraw
  simp only at hch hraw h3 ⊢
  by_cases h90 : ty = NoteOn
  · rw [if_pos h90] at h3
    subst h90
    rcases rd with - | l
    · simp at h3
    rcases l with - | ⟨a, l2⟩
    · simp at h3
    rcases l2 with - | ⟨b, l3⟩
    · simp at h3
    rcases l3 with - | ⟨x3, l4⟩
    swap
    · simp at h3
    simp only [Bool.and_eq_true, decide_eq_true_eq] at h3
    obtain ⟨⟨⟨⟨⟨⟨⟨ha, hb⟩, hbne⟩, hk⟩, hv⟩, hcn⟩, hcv⟩, hpn⟩ := h3
    subst hk hv hcn hcv hpn
    have hbits := type_channel_bits 0x90 ch (by decide) hch
    refine ⟨hch, hraw, [k, v], rfl, ?_, ?_, ?_, ?_⟩
    · simpa [NoteOn] using hbits.1
    · simp only [NoteOn]
      rw [hbits.2.2.2]
      rfl
    · intro x hx
      simp at hx
      rcases hx with rfl | rfl <;> omega
    · simp only [NoteOn] at hraw ⊢
      simp [presentEvent, hbits.2.1, hbits.2.2.1, NoteOn, NoteOff, hbne,
        hraw]
  rw [if_neg h90] at h3
  by_cases h80 : ty = NoteOff ∨ ty = Aftertouch
  · rw [if_pos h80] at h3
    rcases rd with - | l
    · simp at h3
    rcases l with - | ⟨a, l2⟩
    · simp at h3
    rcases l2 with - | ⟨b, l3⟩
    · simp at h3
    rcases l3 with - | ⟨x3, l4⟩
    swap
    · simp at h3
    simp only [Bool.and_eq_true, decide_eq_true_eq] at h3
    obtain ⟨⟨⟨⟨⟨⟨ha, hb⟩, hk⟩, hv⟩, hcn⟩, hcv⟩, hpn⟩ := h3
    subst hk hv hcn hcv hpn
    rcases h80 with rfl | rfl
    · have hbits := type_channel_bits 0x80 ch (by decide) hch
      refine ⟨hch, hraw, [k, v], rfl, ?_, ?_, ?_, ?_⟩
      · simpa [NoteOff] using hbits.1
      · simp only [NoteOff]
        rw [hbits.2.2.2]
        rfl
      · intro x hx
        simp at hx
        rcases hx with rfl | rfl <;> omega
      · simp only [NoteOff] at hraw ⊢
        simp [presentEvent, hbits.2.1, hbits.2.2.1, NoteOn, NoteOff, hraw]
    · have hbits := type_channel_bits 0xA0 ch (by decide) hch
      refine ⟨hch, hraw, [k, v], rfl, ?_, ?_, ?_, ?_⟩
      · simpa [Aftertouch] using hbits.1
      · simp only [Aftertouch]
        rw [hbits.2.2.2]
        rfl
      · intro x hx
        simp at hx
        rcases hx with rfl | rfl <;> omega
      · simp only [Aftertouch] at hraw ⊢
        simp [presentEvent, hbits.2.1, hbits.2.2.1, NoteOn, NoteOff,
          Aftertouch, hraw]
  rw [if_neg h80] at h3
  by_cases hB0 : ty = ControllerChange
  · rw [if_pos hB0] at h3
    subst hB0
    rcases rd with - | l
    · simp at h3
    rcases l with - | ⟨a, l2⟩
    · simp at h3
    rcases l2 with - | ⟨b, l3⟩
    · simp at h3
    rcases l3 with - | ⟨x3, l4⟩
    swap
    · simp at h3
    simp only [Bool.and_eq_true, decide_eq_true_eq] at h3
    obtain ⟨⟨⟨⟨⟨⟨ha, hb⟩, hk⟩, hv⟩, hcn⟩, hcv⟩, hpn⟩ := h3
    subst hk hv hcn hcv hpn
    have hbits := type_channel_bits 0xB0 ch (by decide) hch
    refine ⟨hch, hraw, [cn, cv], rfl, ?_, ?_, ?_, ?_⟩
    · simpa [ControllerChange] using hbits.1
    · simp only [ControllerChange]
      rw [hbits.2.2.2]
      rfl
    · intro x hx
      simp at hx
      rcases hx with rfl | rfl <;> omega
    · simp only [ControllerChange] at hraw ⊢
      simp [presentEvent, hbits.2.1, hbits.2.2.1, NoteOn, NoteOff,
        Aftertouch, ControllerChange, hraw]
  rw [if_neg hB0] at h3
  by_cases hC0 : ty = ProgramChange
  · rw [if_pos hC0] at h3
    subst hC0
    rcases rd with - | l
    · simp at h3
    rcases l with - | ⟨a, l2⟩
    · simp at h3
    rcases l2 with - | ⟨b, l3⟩
    swap
    · simp at h3
    simp only [Bool.and_eq_true, decide_eq_true_eq] at h3
    obtain ⟨⟨⟨⟨⟨ha, hk⟩, hv⟩, hcn⟩, hcv⟩, hpn⟩ := h3
    subst hk hv hcn hcv hpn
    have hbits := type_channel_bits 0xC0 ch (by decide) hch
    refine ⟨hch, hraw, [pn], rfl, ?_, ?_, ?_, ?_⟩
    · simpa [ProgramChange] using hbits.1
    · simp only [ProgramChange]
      rw [hbits.2.2.2]
      rfl
    · intro x hx
      simp at hx
      subst hx
      omega
    · simp only [ProgramChange] at hraw ⊢
      simp [presentEvent, hbits.2.1, hbits.2.2.1, NoteOn, NoteOff,
        Aftertouch, ControllerChange, ProgramChange, hraw]
  rw [if_neg hC0] at h3
  by_cases hD0 : ty = ChannelPressure
  · rw [if_pos hD0] at h3
    subst hD0
    rcases rd with - | l
    · simp at h3
    rcases l with - | ⟨a, l2⟩
    · simp at h3
    rcases l2 with - | ⟨b, l3⟩
    swap
    · simp at h3
    simp only [Bool.and_eq_true, decide_eq_true_eq] at h3
    obtain ⟨⟨⟨⟨⟨ha, hk⟩, hv⟩, hcn⟩, hcv⟩, hpn⟩ := h3
    subst hk hv hcn hcv hpn
    have hbits := type_channel_bits 0xD0 ch (by decide) hch
    refine ⟨hch, hraw, [v], rfl, ?_, ?_, ?_, ?_⟩
    · simpa [ChannelPressure] using hbits.1
    · simp only [ChannelPressure]
      rw [hbits.2.2.2]
      rfl
    · intro x hx
      simp at hx
      subst hx
      omega
    · simp only [ChannelPressure] at hraw ⊢
      simp [presentEvent, hbits.2.1, hbits.2.2.1, NoteOn, NoteOff,
        Aftertouch, ControllerChange, ProgramChange, ChannelPressure, hraw]
  rw [if_neg hD0] at h3
  by_cases hE0 : ty = PitchBend
  · rw [if_pos hE0] at h3
    subst hE0
    rcases rd with - | l
    · simp at h3
    rcases l with - | ⟨a, l2⟩
    · simp at h3
    rcases l2 with - | ⟨b, l3⟩
    · simp at h3
    rcases l3 with - | ⟨x3, l4⟩
    swap
    · simp at h3
    simp only [Bool.and_eq_true, decide_eq_true_eq] at h3
    obtain ⟨⟨⟨⟨⟨⟨ha, hb⟩, hk⟩, hv⟩, hcn⟩, hcv⟩, hpn⟩ := h3
    subst hk hv hcn hcv hpn
    have hbits := type_channel_bits 0xE0 ch (by decide) hch
    refine ⟨hch, hraw, [a, b], rfl, ?_, ?_, ?_, ?_⟩
    · simpa [PitchBend] using hbits.1
    · simp only [PitchBend]
      rw [hbits.2.2.2]
      rfl
    · intro x hx
      simp at hx
      rcases hx with rfl | rfl <;> omega
    · simp only [PitchBend] at hraw ⊢
      simp [presentEvent, hbits.2.1, hbits.2.2.1, NoteOn, NoteOff,
        Aftertouch, ControllerChange, ProgramChange, ChannelPressure,
        PitchBend, hraw]
  rw [if_neg hE0] at h3
  cases h3

end Midi

namespace Midi

theorem runSingle_wf_event (p : EventDataParser) (e : Event)
    (eb rest : List Nat) (began : Bool)
    (hw : wellFormedEvent e = true) (hnd : ∀ t, e ≠ .timeDelta t)
    (henc : encodeMIDIEvent e = .ok eb)
    (hstate : p.state = .wantEvent) (hed : p.eventData = []) :
    ∃ p2, readSingleEventAux p began (eb ++ rest) = .ok (p2, rest) ∧
      p2.state = .wantEvent ∧ p2.eventData = [] ∧
      p2.events = p.events ++ [rawOfEvent e] := by
  match e with
  | .timeDelta t => exact absurd rfl (hnd t)
  | .meta me =>
    have hdlen : me.data.length < 2 ^ 63 := by
      rw [wellFormedEvent, Bool.and_eq_true, Bool.and_eq_true] at hw
      have h2 := hw.1.2
      rw [decide_eq_true_eq] at h2
      omega
    rw [encodeMIDIEvent] at henc
    injection henc with henc
    subst henc
    rw [List.cons_append, List.cons_append, List.append_assoc]
    rw [runSingle_meta p me.type me.data (rest) began hstate hdlen]
    exact ⟨_, rfl, rfl, rfl, by simp [rawOfEvent]⟩
  | .sysex l =>
    match l, hw with
    | b :: tl, hw =>
      have hf : b = 0xF0 ∨ b = 0xF7 := by
        rw [wellFormedEvent, Bool.and_eq_true, Bool.and_eq_true] at hw
        have h1 := hw.1.1
        rw [Bool.or_eq_true, decide_eq_true_eq, decide_eq_true_eq] at h1
        exact h1
      have hdlen : tl.length < 2 ^ 63 := by
        rw [wellFormedEvent, Bool.and_eq_true, Bool.and_eq_true] at hw
        have h2 := hw.1.2
        rw [decide_eq_true_eq] at h2
        omega
      rw [encodeMIDIEvent] at henc
      injection henc with henc
      subst henc
      rw [List.cons_append, List.append_assoc]
      rw [runSingle_sysex p b tl rest began hstate hf hdlen]
      exact ⟨_, rfl, rfl, by simpa using hed, by simp [rawOfEvent]⟩
  | .midi m =>
    obtain ⟨hch, hraw, d, hrd, hmod, hspec, hlt, hpres⟩ :=
      wellFormedMidi_elim m hw
    rw [encodeMIDIEvent] at henc
    rw [hrd] at henc
    injection henc with henc
    subst henc
    rw [List.cons_append, hmod]
    rw [runSingle_midi p (m.type ||| m.channel) d rest began hstate hed
      (by rw [hspec]) (fun x hx => and128_of_lt x (hlt x hx))]
    refine ⟨_, rfl, hstate, rfl, ?_⟩
    simp only [rawOfEvent, hrd, hmod]
    simp

end Midi

namespace Midi

/-! ### Encoder facts for well-formed events -/

theorem encodeVarint_ne_nil (n : Nat) : encodeVarint n ≠ [] := by
  rcases Nat.eq_zero_or_pos n with hn | hn
  · subst hn; simp [encodeVarint]
  · rw [encodeVarint_pos n hn]; simp

theorem encodeMIDIEvent_ok_ne_nil (e : Event) (eb : List Nat)
    (h : encodeMIDIEvent e = .ok eb) : eb ≠ [] := by
  match e with
  | .timeDelta t =>
    rw [encodeMIDIEvent] at h
    injection h with h
    subst h
    exact encodeVarint_ne_nil _
  | .sysex [] => rw [encodeMIDIEvent] at h; cases h
  | .sysex (b :: tl) =>
    rw [encodeMIDIEvent] at h; injection h with h; subst h; simp
  | .meta me =>
    rw [encodeMIDIEvent] at h; injection h with h; subst h; simp
  | .midi m =>
    rw [encodeMIDIEvent] at h
    cases hrd : m.rawData with
    | some d => rw [hrd] at h; injection h with h; subst h; simp
    | none =>
      rw [hrd] at h
      by_cases ht : m.type = NoteOn ∨ m.type = NoteOff
      · rw [if_pos ht] at h; injection h with h; subst h; simp
      · rw [if_neg ht] at h; cases h

theorem encodeMIDIEvent_wf_ok (e : Event) (hw : wellFormedEvent e = true)
    (hnd : ∀ t, e ≠ .timeDelta t) :
    ∃ eb, encodeMIDIEvent e = .ok eb := by
  match e with
  | .timeDelta t => exact absurd rfl (hnd t)
  | .sysex [] => rw [wellFormedEvent] at hw; cases hw
  | .sysex (b :: tl) => exact ⟨_, rfl⟩
  | .meta me => exact ⟨_, rfl⟩
  | .midi m =>
    obtain ⟨-, -, d, hrd, -⟩ := wellFormedMidi_elim m hw
    exact ⟨_, by rw [encodeMIDIEvent, hrd]⟩

theorem encodeEventsAux_cons_nd (e : Event) (evts : List Event) (delay : Nat)
    (hnd : ∀ t, e ≠ .timeDelta t) :
    encodeEventsAux (e :: evts) delay =
      match encodeMIDIEvent e with
      | .error err => .error err
      | .ok encoded =>
        match encodeEventsAux evts 0 with
        | .error err => .error err
        | .ok rest => .ok (encodeVarint delay ++ encoded ++ rest) := by
  match e with
  | .timeDelta t => exact absurd rfl (hnd t)
  | .sysex d =>
    rw [encodeEventsAux]
    intro td h
    cases h
  | .meta me =>
    rw [encodeEventsAux]
    intro td h
    cases h
  | .midi m =>
    rw [encodeEventsAux]
    intro td h
    cases h

theorem rawNormalizeAux_cons_nd (e : Event) (evts : List Event) (acc : Nat)
    (hnd : ∀ t, e ≠ .timeDelta t) :
    rawNormalizeAux acc (e :: evts) =
      (if acc = 0 then []
       else [{ kind := .timeDeltaEvent, timeDelta := acc }]) ++
        rawOfEvent e :: rawNormalizeAux 0 evts := by
  match e with
  | .timeDelta t => exact absurd rfl (hnd t)
  | .sysex d =>
    rw [rawNormalizeAux]
    intro td h
    cases h
  | .meta me =>
    rw [rawNormalizeAux]
    intro td h
    cases h
  | .midi m =>
    rw [rawNormalizeAux]
    intro td h
    cases h

end Midi

namespace Midi

/-! ### The track-body loop on an encoded event list -/

theorem parseTrackBodyAux_encode (evts : List Event) :
    ∀ (fuel delay : Nat) (p : EventDataParser) (bs : List Nat),
      wellFormedEvents evts = true →
      p.state = .wantEvent → p.eventData = [] →
      delay < 2 ^ 64 →
      encodeEventsAux evts delay = .ok bs →
      bs.length < fuel →
      parseTrackBodyAux fuel p bs =
        .ok (p.events ++ rawNormalizeAux delay evts) := by
  induction evts with
  | nil =>
    intro fuel delay p bs _ _ _ _ henc hfuel
    rw [encodeEventsAux] at henc
    injection henc with henc
    subst henc
    obtain ⟨f, rfl⟩ : ∃ f, fuel = f + 1 := ⟨fuel - 1, by omega⟩
    simp [parseTrackBodyAux, readVarint, readVarintAux, rawNormalizeAux]
  | cons e evts ih =>
    intro fuel delay p bs hw hstate hed hdel henc hfuel
    rw [wellFormedEvents, List.all_cons, Bool.and_eq_true] at hw
    obtain ⟨hwe, hwt⟩ := hw
    by_cases hdelta : ∃ t, e = .timeDelta t
    · obtain ⟨t, rfl⟩ := hdelta
      rw [encodeEventsAux] at henc
      rw [rawNormalizeAux]
      exact ih fuel _ p bs hwt hstate hed
        (Nat.mod_lt _ (by norm_num)) henc hfuel
    · have hnd : ∀ t, e ≠ .timeDelta t := by
        intro t h
        exact hdelta ⟨t, h⟩
      rw [encodeEventsAux_cons_nd e evts delay hnd] at henc
      cases henc1 : encodeMIDIEvent e with
      | error err => rw [henc1] at henc; cases henc
      | ok eb =>
        rw [henc1] at henc
        cases henc2 : encodeEventsAux evts 0 with
        | error err => rw [henc2] at henc; cases henc
        | ok rest2 =>
          rw [henc2] at henc
          injection henc with henc
          subst henc
          obtain ⟨f, rfl⟩ : ∃ f, fuel = f + 1 := ⟨fuel - 1, by omega⟩
          rw [parseTrackBodyAux]
          rw [List.append_assoc]
          rw [readVarint_encodeVarint delay (eb ++ rest2) hdel]
          dsimp only
          have hebne := encodeMIDIEvent_ok_ne_nil e eb henc1
          have hlen2 : rest2.length < f := by
            have h1 : 1 ≤ (encodeVarint delay).length := by
              cases hv : encodeVarint delay with
              | nil => exact absurd hv (encodeVarint_ne_nil delay)
              | cons x xs => simp
            have h2 : 1 ≤ eb.length := by
              cases hv : eb with
              | nil => exact absurd hv hebne
              | cons x xs => simp
            simp only [List.length_append] at hfuel
            omega
          by_cases hd0 : 0 < delay
          · rw [if_pos hd0]
            obtain ⟨p2, hrun, hst2, hed2, hev2⟩ :=
              runSingle_wf_event (addTimeDelta p delay) e eb rest2 false hwe
                hnd henc1 (by simpa [addTimeDelta] using hstate)
                (by simpa [addTimeDelta] using hed)
            rw [show readSingleEvent (addTimeDelta p delay) (eb ++ rest2) =
              readSingleEventAux (addTimeDelta p delay) false (eb ++ rest2)
              from rfl]
            rw [hrun]
            dsimp only
            rw [ih f 0 p2 rest2 hwt hst2 hed2 (by norm_num) henc2 hlen2]
            rw [rawNormalizeAux_cons_nd e evts delay hnd]
            rw [hev2]
            simp [addTimeDelta, if_neg (by omega : ¬delay = 0)]
          · rw [if_neg hd0]
            obtain ⟨p2, hrun, hst2, hed2, hev2⟩ :=
              runSingle_wf_event p e eb rest2 false hwe hnd henc1 hstate hed
            rw [show readSingleEvent p (eb ++ rest2) =
              readSingleEventAux p false (eb ++ rest2) from rfl]
            rw [hrun]
            dsimp only
            rw [ih f 0 p2 rest2 hwt hst2 hed2 (by norm_num) henc2 hlen2]
            rw [rawNormalizeAux_cons_nd e evts delay hnd]
            rw [hev2]
            simp [if_pos (by omega : delay = 0)]

end Midi

namespace Midi

theorem normalizeEventsAux_cons_nd (e : Event) (evts : List Event) (acc : Nat)
    (hnd : ∀ t, e ≠ .timeDelta t) :
    normalizeEventsAux acc (e :: evts) =
      (if acc = 0 then [] else [.timeDelta (toInt64 acc)]) ++
        e :: normalizeEventsAux 0 evts := by
  match e with
  | .timeDelta t => exact absurd rfl (hnd t)
  | .sysex d =>
    rw [normalizeEventsAux]
    intro td h
    cases h
  | .meta me =>
    rw [normalizeEventsAux]
    intro td h
    cases h
  | .midi m =>
    rw [normalizeEventsAux]
    intro td h
    cases h

theorem presentEvent_rawOf (e : Event) (hw : wellFormedEvent e = true)
    (hnd : ∀ t, e ≠ .timeDelta t) :
    presentEvent (rawOfEvent e) = .ok e := by
  match e with
  | .timeDelta t => exact absurd rfl (hnd t)
  | .sysex [] => rw [wellFormedEvent] at hw; cases hw
  | .sysex (b :: tl) => rfl
  | .meta me => rfl
  | .midi m =>
    obtain ⟨-, -, d, hrd, htyeq, -, -, hpres⟩ := wellFormedMidi_elim m hw
    show presentEvent
        { kind := .midiEvent,
          typeByte := m.type % 256 ||| m.channel % 256,
          data := m.rawData.getD [] } = .ok (.midi m)
    rw [hrd, htyeq]
    exact hpres

theorem presentAll_rawNormalize (evts : List Event) :
    ∀ acc, wellFormedEvents evts = true →
      presentAll (rawNormalizeAux acc evts) =
        .ok (normalizeEventsAux acc evts) := by
  induction evts with
  | nil => intro acc _; rfl
  | cons e evts ih =>
    intro acc hw
    rw [wellFormedEvents, List.all_cons, Bool.and_eq_true] at hw
    obtain ⟨hwe, hwt⟩ := hw
    by_cases hdelta : ∃ t, e = .timeDelta t
    · obtain ⟨t, rfl⟩ := hdelta
      rw [rawNormalizeAux, normalizeEventsAux]
      exact ih _ hwt
    · have hnd : ∀ t, e ≠ .timeDelta t := fun t h => hdelta ⟨t, h⟩
      rw [rawNormalizeAux_cons_nd e evts acc hnd,
          normalizeEventsAux_cons_nd e evts acc hnd]
      have hrec := ih 0 hwt
      have hpe := presentEvent_rawOf e hwe hnd
      by_cases hacc : acc = 0
      · rw [if_pos hacc, if_pos hacc]
        simp only [List.nil_append]
        rw [presentAll, hpe]
        dsimp only
        rw [hrec]
      · rw [if_neg hacc, if_neg hacc]
        simp only [List.cons_append, List.nil_append]
        rw [presentAll]
        rw [show presentEvent { kind := .timeDeltaEvent, timeDelta := acc } =
          .ok (.timeDelta (toInt64 acc)) from rfl]
        dsimp only
        rw [presentAll, hpe]
        dsimp only
        rw [hrec]

theorem encodeEventsAux_wf_ok (evts : List Event) :
    ∀ delay, wellFormedEvents evts = true →
      ∃ bs, encodeEventsAux evts delay = .ok bs := by
  induction evts with
  | nil => intro delay _; exact ⟨[], rfl⟩
  | cons e evts ih =>
    intro delay hw
    rw [wellFormedEvents, List.all_cons, Bool.and_eq_true] at hw
    obtain ⟨hwe, hwt⟩ := hw
    by_cases hdelta : ∃ t, e = .timeDelta t
    · obtain ⟨t, rfl⟩ := hdelta
      rw [encodeEventsAux]
      exact ih _ hwt
    · have hnd : ∀ t, e ≠ .timeDelta t := fun t h => hdelta ⟨t, h⟩
      obtain ⟨eb, heb⟩ := encodeMIDIEvent_wf_ok e hwe hnd
      obtain ⟨rest, hrest⟩ := ih 0 hwt
      exact ⟨_, by rw [encodeEventsAux_cons_nd e evts delay hnd, heb, hrest]⟩

/-- C2 counterexample: a track consisting of a single non-zero TimeDelta
event encodes to an empty byte sequence (the encoder holds the delay
pending and never flushes it), which parses back to the empty event list;
the spec-licensed normalization of the original list keeps the trailing
TimeDelta, so the round-trip does not equal the original list up to the
claimed normalization. -/
theorem c2_counterexample :
    encodeEvents [.timeDelta 5] = .ok [] ∧
    parsePresentedBody [] = .ok [] ∧
    specMergeDeltas [.timeDelta 5] = [.timeDelta 5] ∧
    ([] : List Event) ≠ [.timeDelta 5] := by
  refine ⟨rfl, rfl, rfl, by decide⟩

/-- C2 (amended): for every track of well-formed events — events the
parser can reproduce verbatim: MIDI events carry their wire payload with
in-range data bytes and consistent derived fields (and are not NoteOn
with velocity 0, which presents as NoteOff), SysEx events start with
0xF0/0xF7, meta and sysex payload bytes fit in a byte, and TimeDelta
values fit in an int64 — encoding the events succeeds and parsing the
resulting body yields the original list up to merging each run of
consecutive TimeDelta events into one carrying their sum, dropping
TimeDelta events of value 0, AND dropping a trailing run of TimeDelta
events entirely (the encoder leaves a final pending delay unflushed). -/
theorem c2_round_trip (evts : List Event)
    (hw : wellFormedEvents evts = true) :
    ∃ bs, encodeEvents evts = .ok bs ∧
      parsePresentedBody bs = .ok (normalizeEvents evts) := by
  obtain ⟨bs, hbs⟩ := encodeEventsAux_wf_ok evts 0 hw
  refine ⟨bs, hbs, ?_⟩
  unfold parsePresentedBody parseTrackBody
  rw [parseTrackBodyAux_encode evts (bs.length + 1) 0 {} bs hw rfl rfl
    (by norm_num) hbs (by omega)]
  dsimp only
  rw [show ({} : EventDataParser).events ++ rawNormalizeAux 0 evts =
    rawNormalizeAux 0 evts from List.nil_append _]
  rw [normalizeEvents]
  exact presentAll_rawNormalize evts 0 hw

theorem c2_round_trip_witness :
    wellFormedEvents
      [.timeDelta 10,
       .midi { type := 0x90, rawType := 0x90, channel := 0, key := 0x3C,
               velocity := 0x7F, rawData := some [0x3C, 0x7F] },
       .meta { type := 0x2F, data := [] }] = true ∧
    ∃ bs,
      encodeEvents
        [.timeDelta 10,
         .midi { type := 0x90, rawType := 0x90, channel := 0, key := 0x3C,
                 velocity := 0x7F, rawData := some [0x3C, 0x7F] },
         .meta { type := 0x2F, data := [] }] = .ok bs ∧
      parsePresentedBody bs =
        .ok (normalizeEvents
          [.timeDelta 10,
           .midi { type := 0x90, rawType := 0x90, channel := 0, key := 0x3C,
                   velocity := 0x7F, rawData := some [0x3C, 0x7F] },
           .meta { type := 0x2F, data := [] }]) :=
  ⟨by decide, c2_round_trip _ (by decide)⟩

end Midi
